import Mathlib

/-!
Verification of the entity/board simulation layer of the ClassicArcadeGame
repository (src/js/app.js, driven by the engine file).

The JavaScript classes are shallowly embedded as Lean structures and
executable functions.  JavaScript numbers are modelled as rationals (all
arithmetic performed by the program on the modelled paths is exact:
additions, multiplications, halving for centers, `Math.floor`/`Math.ceil`).
Code that throws is modelled with `Except`.  Randomness (`Math.random`) is
modelled as an explicit stream `rng : Nat -> Rat` of draws together with a
counter, each draw standing for one `Math.random()` result in [0,1).
-/

/-- Errors thrown by the JavaScript runtime or by the program itself.
`typeErr` stands for a TypeError raised by dereferencing `undefined`,
`referenceErr` for a ReferenceError raised by evaluating an identifier that
is not in scope, `thrown` for an explicit `throw new Error(msg)`, and
`diverge` marks exhaustion of the fuel used to model an unbounded loop. -/
inductive JSErr where
  | typeErr : JSErr
  | referenceErr : JSErr
  | thrown : String → JSErr
  | diverge : JSErr
deriving DecidableEq, Repr

/-- Class `Point` of app.js: a coordinate pair in 2D space. -/
structure Point where
  x : ℚ
  y : ℚ
deriving DecidableEq, Repr

/-- Method `Point.offset(xOffset, yOffset)`: a new point translated by the
given offsets (`Point.clone` is the identity in this value semantics). -/
def Point.offset (p : Point) (xOffset yOffset : ℚ) : Point :=
  ⟨p.x + xOffset, p.y + yOffset⟩

/-- Class `Dimensions` of app.js: a width/height pair. -/
structure Dimensions where
  width : ℚ
  height : ℚ
deriving DecidableEq, Repr

/-- Class `Area` of app.js: an axis-aligned rectangle given by the position
of its top left corner and its dimensions. -/
structure Area where
  position : Point
  dimensions : Dimensions
deriving DecidableEq, Repr

/-- Getter `Area.topLeft`. -/
def Area.topLeft (a : Area) : Point := a.position

/-- Getter `Area.topRight`. -/
def Area.topRight (a : Area) : Point :=
  ⟨a.position.x + a.dimensions.width, a.position.y⟩

/-- Getter `Area.bottomLeft`. -/
def Area.bottomLeft (a : Area) : Point :=
  ⟨a.position.x, a.position.y + a.dimensions.height⟩

/-- Getter `Area.bottomRight`. -/
def Area.bottomRight (a : Area) : Point :=
  ⟨a.position.x + a.dimensions.width, a.position.y + a.dimensions.height⟩

/-- Getter `Area.corners`: the four corner points, in source order. -/
def Area.corners (a : Area) : List Point :=
  [a.topLeft, a.topRight, a.bottomLeft, a.bottomRight]

/-- Getter `Area.center`. -/
def Area.center (a : Area) : Point :=
  ⟨a.position.x + a.dimensions.width / 2, a.position.y + a.dimensions.height / 2⟩

/-- Method `Area.contains(objectInSpace)`, branch for a `Point` argument:
the point's coordinates are compared against the corner coordinates. -/
def Area.containsPoint (a : Area) (p : Point) : Bool :=
  decide (a.topLeft.x ≤ p.x) && decide (p.x ≤ a.topRight.x) &&
  decide (a.topLeft.y ≤ p.y) && decide (p.y ≤ a.bottomLeft.y)

/-- Method `Area.contains(objectInSpace)`, branch for an `Area` argument:
every corner of the other area must be contained. -/
def Area.containsArea (a b : Area) : Bool :=
  b.corners.all fun corner => a.containsPoint corner

/-- Method `Area.intersectsWith(objectInSpace)`, branch for a `Point`
argument: delegates to `contains`. -/
def Area.intersectsPoint (a : Area) (p : Point) : Bool :=
  a.containsPoint p

/-- Method `Area.intersectsWith(objectInSpace)`, branch for an `Area`
argument: some corner of either rectangle lies inside the other. -/
def Area.intersectsArea (a b : Area) : Bool :=
  (b.corners.any fun corner => a.containsPoint corner) ||
  (a.corners.any fun corner => b.containsPoint corner)

/-- Method `Area.offset(xOffset, yOffset)`: a translated copy. -/
def Area.offset (a : Area) (xOffset yOffset : ℚ) : Area :=
  ⟨a.position.offset xOffset yOffset, a.dimensions⟩

/-- Method `Area.centerOn(objectInSpace)`, branch for a `Point` argument:
a copy of this area whose center is the given point. -/
def Area.centerOnPoint (a : Area) (p : Point) : Area :=
  ⟨⟨p.x - a.dimensions.width / 2, p.y - a.dimensions.height / 2⟩, a.dimensions⟩

/-- Method `Area.centerOn(objectInSpace)`, branch for an `Area` argument:
centering on an area is centering on its center point. -/
def Area.centerOnArea (a b : Area) : Area :=
  a.centerOnPoint b.center

/-- C8: for every `Area` A and `Point` P, `A.contains(P)` is true exactly
when P.x lies between A's left and right edges inclusive and P.y lies
between A's top and bottom edges inclusive, and `A.intersectsWith(P)`
returns the same value as `A.contains(P)`. -/
theorem area_contains_point_spec (a : Area) (p : Point) :
    (a.containsPoint p = true ↔
      (a.position.x ≤ p.x ∧ p.x ≤ a.position.x + a.dimensions.width ∧
       a.position.y ≤ p.y ∧ p.y ≤ a.position.y + a.dimensions.height)) ∧
    a.intersectsPoint p = a.containsPoint p := by
  constructor
  · simp [Area.containsPoint, Area.topLeft, Area.topRight, Area.bottomLeft,
      and_assoc]
  · rfl

/-- Cell types accepted by `BoardGridCell.typeToSprite`; any other string
makes the constructor throw, so the valid types form this closed inductive. -/
inductive CellType where
  | water : CellType
  | road : CellType
  | grass : CellType
deriving DecidableEq, Repr

/-- Static method `BoardGridCell.typeToSprite(type)`. -/
def typeToSprite : CellType → String
  | .water => "images/water.png"
  | .road => "images/road.png"
  | .grass => "images/grass.png"

/-- The x/y increment objects used for `Actor.move` and `Enemy.moveIncrement`. -/
structure Vec where
  x : ℚ
  y : ℚ
deriving DecidableEq, Repr

/-- Class `EntityVisual`: sprite path, full pixel dimensions (which some
constructors leave unset, hence `Option`) and the occupied sub-rectangle.
Constructors that pass no `occupiedArea` get `Area((0,0), dimensions)`;
the concrete entity constructors below resolve this at construction. -/
structure EntityVisual where
  sprite : String
  dimensions : Option Dimensions
  occupiedArea : Area
deriving DecidableEq, Repr

/-- Kind-specific data of the concrete entity classes: `BoardGridCell`
(type and grid position), `Diamond`, `Enemy` (`moveIncrement` and
`respawnOnNextUpdate`), and the plain `Prop` instance created by
`Player.bleed` (the blood marker). -/
inductive EntKind where
  | cell (type : CellType) (gridRow gridCol : ℕ) : EntKind
  | diamond : EntKind
  | enemy (moveIncrement : Vec) (respawnOnNextUpdate : Bool) : EntKind
  | bloodProp : EntKind
deriving DecidableEq, Repr

/-- State of one non-player entity: the fields set by the `Entity`
constructor plus the kind-specific data. -/
structure Ent where
  sprite : String
  position : Point
  visualDims : Option Dimensions
  visualOccupied : Area
  zIndex : ℤ
  hitScoreIncrement : ℚ
  removeOnHit : Bool
  kind : EntKind
deriving DecidableEq, Repr

/-- Getter `Entity.occupiedArea`: the visual's occupied sub-rectangle
offset by the entity's position. -/
def Ent.occupiedArea (e : Ent) : Area :=
  e.visualOccupied.offset e.position.x e.position.y

/-- Check `entity instanceof Enemy`. -/
def Ent.isEnemy (e : Ent) : Bool :=
  match e.kind with
  | .enemy _ _ => true
  | _ => false

/-- Check `entity instanceof BoardGridCell && entity.type === "water"`. -/
def Ent.isWaterCell (e : Ent) : Bool :=
  match e.kind with
  | .cell t _ _ => t = CellType.water
  | _ => false

/-- Check `entity instanceof Diamond` (used by `placeDiamonds`). -/
def Ent.isDiamond (e : Ent) : Bool :=
  match e.kind with
  | .diamond => true
  | _ => false

/-- Check for a cell entity of type road (used to collect `roadCells`). -/
def Ent.isRoadCell (e : Ent) : Bool :=
  match e.kind with
  | .cell t _ _ => t = CellType.road
  | _ => false

/-- Field `Enemy.moveIncrement` (zero for non-enemies; only read on
entities that passed the `instanceof Enemy` check). -/
def Ent.moveInc (e : Ent) : Vec :=
  match e.kind with
  | .enemy mi _ => mi
  | _ => ⟨0, 0⟩

/-- Field `Enemy.respawnOnNextUpdate` (false for non-enemies; only read on
entities that passed the `instanceof Enemy` check). -/
def Ent.respawnOnNextUpdate (e : Ent) : Bool :=
  match e.kind with
  | .enemy _ f => f
  | _ => false

/-- Construction-time configuration of a `Board` together with the cell
visual template handed to it by the engine (`engine.js` `init`): the
template's occupied sub-rectangle drives all grid geometry. -/
structure BoardConfig where
  numberOfColumns : ℕ
  rowTypes : List CellType
  numberOfEnemies : ℕ
  numberOfDiamonds : ℕ
  enemyIncrementMin : ℚ
  enemyIncrementMax : ℚ
  cellTemplateSprite : String
  cellTemplateDims : Dimensions
  cellTemplateOccupied : Area
deriving DecidableEq, Repr

/-- Getter `BoardGrid.numberOfRows`: the length of `rowTypes`. -/
def BoardConfig.numberOfRows (cfg : BoardConfig) : ℕ :=
  cfg.rowTypes.length

/-- Method `BoardGrid.calculateCellPosition(row, column)`: grid coordinates
scaled by the occupied-area dimensions of the board's cell visual template. -/
def calculateCellPosition (cfg : BoardConfig) (row col : ℤ) : Point :=
  ⟨col * cfg.cellTemplateOccupied.dimensions.width,
   row * cfg.cellTemplateOccupied.dimensions.height⟩

/-- The occupied sub-rectangle hard-coded in the `BoardGridCell`
constructor's `EntityVisual`. -/
def cellVisualOccupied : Area := ⟨⟨0, 52⟩, ⟨101, 83⟩⟩

/-- Occupied area of the grid cell at `(row, col)`: the cell's hard-coded
occupied sub-rectangle offset by the cell's position as computed by
`calculateCellPosition`.  For in-bounds coordinates this is exactly the
`occupiedArea` of the cell object stored in the grid (see
`getCell_stored_cell`); the loops below only evaluate it in bounds. -/
def cellOccupiedArea (cfg : BoardConfig) (row col : ℤ) : Area :=
  cellVisualOccupied.offset (calculateCellPosition cfg row col).x
    (calculateCellPosition cfg row col).y

/-- Field `BoardGrid._occupiedArea`: the template's occupied position with
the occupied dimensions scaled by the column and row counts. -/
def gridOccupiedArea (cfg : BoardConfig) : Area :=
  ⟨cfg.cellTemplateOccupied.position,
   ⟨cfg.cellTemplateOccupied.dimensions.width * cfg.numberOfColumns,
    cfg.cellTemplateOccupied.dimensions.height * cfg.numberOfRows⟩⟩

/-- Method `BoardGrid.hasCell(row, column)`: the bounds predicate. -/
def hasCell (cfg : BoardConfig) (row col : ℤ) : Bool :=
  decide (0 ≤ row) && decide (row < (cfg.numberOfRows : ℤ)) &&
  decide (0 ≤ col) && decide (col < (cfg.numberOfColumns : ℤ))

/-- Running z-index of the grid construction loop: `zIndex += rowIndex` is
executed once per row, so row `r` uses the sum of the indices up to `r`. -/
def rowZIndex : ℕ → ℤ
  | 0 => 0
  | r + 1 => rowZIndex r + (r + 1)

/-- The `BoardGridCell` stored at `(row, col)` after `BoardGrid`
construction: the constructor fixes sprite, occupied sub-rectangle and
`hitScoreIncrement` from the type, and `setCell`/`placeInGrid` set the grid
position and the pixel position. -/
def mkCell (cfg : BoardConfig) (type : CellType) (z : ℤ) (row col : ℕ) : Ent :=
  { sprite := typeToSprite type
    position := calculateCellPosition cfg row col
    visualDims := none
    visualOccupied := cellVisualOccupied
    zIndex := z
    hitScoreIncrement := if type = CellType.water then 2 else 0
    removeOnHit := false
    kind := .cell type row col }

/-- The row type used for row `r` of the grid: `rowTypes[rowIndex]`.  The
construction loop only reads in-bounds indices, so the `getD` default is
never exercised there. -/
def rowTypeAt (cfg : BoardConfig) (r : ℕ) : CellType :=
  cfg.rowTypes.getD r CellType.water

/-- Field `BoardGrid._rows` after construction: the nested row/column
arrays are first filled with null and then every slot receives its cell,
so the end state is this fully populated matrix. -/
def mkGridRows (cfg : BoardConfig) : List (List Ent) :=
  (List.range cfg.numberOfRows).map fun r =>
    (List.range cfg.numberOfColumns).map fun c =>
      mkCell cfg (rowTypeAt cfg r) (rowZIndex r) r c

/-- JavaScript array indexing `arr[i]` for a possibly signed index:
`undefined` (here `none`) when the index is negative or out of range. -/
def jsIndex {α : Type} (l : List α) (i : ℤ) : Option α :=
  if 0 ≤ i then l[i.toNat]? else none

/-- Method `BoardGrid.getCell(row, column)`, i.e. `this._rows[row][column]`
with JavaScript semantics: if `_rows[row]` is `undefined` the second
indexing throws a TypeError; otherwise the result is the inner slot, which
is `undefined` when the column is out of range. -/
def getCellJS (rows : List (List Ent)) (row col : ℤ) : Except JSErr (Option Ent) :=
  match jsIndex rows row with
  | none => .error .typeErr
  | some r => .ok (jsIndex r col)

/-- Field `BoardGrid._cells`: every cell, pushed in row-major order by the
construction loop. -/
def gridCells (cfg : BoardConfig) : List Ent :=
  (mkGridRows cfg).flatten

/-- Decidable equality of `Except` results, used to evaluate the embedding
on concrete inputs. -/
instance {ε α : Type} [DecidableEq ε] [DecidableEq α] : DecidableEq (Except ε α) :=
  fun x y =>
    match x, y with
    | .error e, .error f =>
      if h : e = f then .isTrue (by rw [h]) else .isFalse (by simp [h])
    | .error _, .ok _ => .isFalse (by simp)
    | .ok _, .error _ => .isFalse (by simp)
    | .ok a, .ok b =>
      if h : a = b then .isTrue (by rw [h]) else .isFalse (by simp [h])

/-- Characterization of the stored grid matrix: in-bounds natural indices
return exactly the constructed cell. -/
lemma mkGridRows_getElem? (cfg : BoardConfig) (r c : ℕ)
    (hr : r < cfg.numberOfRows) (hc : c < cfg.numberOfColumns) :
    ((mkGridRows cfg)[r]?.bind fun row => row[c]?) =
      some (mkCell cfg (rowTypeAt cfg r) (rowZIndex r) r c) := by
  simp [mkGridRows, List.getElem?_map, List.getElem?_range, hr, hc]

/-- Length of the stored grid matrix. -/
lemma mkGridRows_length (cfg : BoardConfig) :
    (mkGridRows cfg).length = cfg.numberOfRows := by
  simp [mkGridRows]

/-- C10 (corrected): if `hasCell(row, column)` holds then `getCell(row,
column)` returns the cell stored at that grid position, without failing.
If `hasCell` fails because the row is out of range, `getCell` throws (the
inner indexing dereferences `undefined`); but if the row is in range and
only the column is out of range, `getCell` does not throw: it returns
`undefined` (no cell). -/
theorem getCell_spec (cfg : BoardConfig) (row col : ℤ) :
    (hasCell cfg row col = true →
      getCellJS (mkGridRows cfg) row col =
        .ok (some (mkCell cfg (rowTypeAt cfg row.toNat) (rowZIndex row.toNat)
          row.toNat col.toNat))) ∧
    ((row < 0 ∨ (cfg.numberOfRows : ℤ) ≤ row) →
      getCellJS (mkGridRows cfg) row col = .error .typeErr) ∧
    ((0 ≤ row ∧ row < (cfg.numberOfRows : ℤ) ∧
        (col < 0 ∨ (cfg.numberOfColumns : ℤ) ≤ col)) →
      getCellJS (mkGridRows cfg) row col = .ok none) := by
  refine ⟨?_, ?_, ?_⟩
  · intro h
    simp only [hasCell, Bool.and_eq_true, decide_eq_true_eq] at h
    obtain ⟨⟨⟨hr0, hrn⟩, hc0⟩, hcn⟩ := h
    have hr : row.toNat < cfg.numberOfRows := by omega
    have hc : col.toNat < cfg.numberOfColumns := by omega
    have hrow : (mkGridRows cfg)[row.toNat]? =
        some ((List.range cfg.numberOfColumns).map fun c =>
          mkCell cfg (rowTypeAt cfg row.toNat) (rowZIndex row.toNat) row.toNat c) := by
      simp [mkGridRows, List.getElem?_map, List.getElem?_range, hr]
    simp [getCellJS, jsIndex, if_pos hr0, if_pos hc0, hrow,
      List.getElem?_map, List.getElem?_range, hc]
  · intro h
    have hnone : jsIndex (mkGridRows cfg) row = none := by
      unfold jsIndex
      split
      · rename_i h0
        rw [List.getElem?_eq_none]
        rw [mkGridRows_length]
        rcases h with h | h
        · omega
        · omega
      · rfl
    simp [getCellJS, hnone]
  · rintro ⟨hr0, hrn, hc⟩
    have hr : row.toNat < cfg.numberOfRows := by omega
    have hrow : (mkGridRows cfg)[row.toNat]? =
        some ((List.range cfg.numberOfColumns).map fun c =>
          mkCell cfg (rowTypeAt cfg row.toNat) (rowZIndex row.toNat) row.toNat c) := by
      simp [mkGridRows, List.getElem?_map, List.getElem?_range, hr]
    have hcol : jsIndex ((List.range cfg.numberOfColumns).map fun c =>
        mkCell cfg (rowTypeAt cfg row.toNat) (rowZIndex row.toNat) row.toNat c) col
        = none := by
      unfold jsIndex
      split
      · rw [List.getElem?_eq_none]
        simp only [List.length_map, List.length_range]
        rcases hc with h | h
        · omega
        · omega
      · rfl
    simp [getCellJS, jsIndex, if_pos hr0, hrow]
    intro h0
    rcases hc with h | h
    · omega
    · omega

/-- The default board configuration of the repository: the `Board` and
`BoardGrid` constructor defaults combined with the cell visual template
built in `engine.js` (the road sprite's 101 by 171 pixels and the shared
occupied sub-rectangle). -/
def defaultCfg : BoardConfig :=
  { numberOfColumns := 7
    rowTypes := [.water, .road, .road, .road, .road, .road, .grass, .grass]
    numberOfEnemies := 10
    numberOfDiamonds := 1
    enemyIncrementMin := 20
    enemyIncrementMax := 200
    cellTemplateSprite := "images/road.png"
    cellTemplateDims := ⟨101, 171⟩
    cellTemplateOccupied := ⟨⟨0, 52⟩, ⟨101, 83⟩⟩ }

/-- C10 counterexample: on the default 8-row, 7-column configuration the
position (0, 7) is outside the grid (`hasCell` is false), yet `getCell`
does not fail with any error: it returns `undefined` (no cell). -/
theorem getCell_no_error_on_bad_column :
    hasCell defaultCfg 0 7 = false ∧
    getCellJS (mkGridRows defaultCfg) 0 7 = .ok none := by
  constructor
  · decide
  · decide

/-- Witness for the corrected C10 theorem at a concrete in-bounds input, a
concrete out-of-range-row input, and a concrete negative-column input. -/
theorem getCell_spec_witness :
    (hasCell defaultCfg 1 2 = true ∧
      getCellJS (mkGridRows defaultCfg) 1 2 =
        .ok (some (mkCell defaultCfg (rowTypeAt defaultCfg 1) (rowZIndex 1) 1 2))) ∧
    getCellJS (mkGridRows defaultCfg) 9 0 = .error .typeErr ∧
    getCellJS (mkGridRows defaultCfg) 0 (-1) = .ok none :=
  ⟨⟨by decide, (getCell_spec defaultCfg 1 2).1 (by decide)⟩,
   (getCell_spec defaultCfg 9 0).2.1 (by decide),
   (getCell_spec defaultCfg 0 (-1)).2.2 (by decide)⟩

/-- The occupied sub-rectangle hard-coded in the `Player` constructor's
`EntityVisual`. -/
def playerVisualOccupied : Area := ⟨⟨34, 120⟩, ⟨34, 20⟩⟩

/-- State of a `Player`: pixel position, tracked grid position and score.
The visual is the fixed player visual, `canMoveOutsideBoard` is pinned to
false by the constructor, and free movement is forbidden (see below). -/
structure PlayerState where
  position : Point
  gridRow : ℤ
  gridCol : ℤ
  score : ℚ
deriving DecidableEq, Repr

/-- Getter `Player.occupiedArea` via the inherited `Entity.occupiedArea`. -/
def PlayerState.occupiedArea (p : PlayerState) : Area :=
  playerVisualOccupied.offset p.position.x p.position.y

/-- Method `Entity.moveToCell(row, column)` as a position transformer: the
target cell's occupied area is fetched (`cellOccupiedArea` equals the
stored cell's occupied area for the in-bounds coordinates at which the
program calls this), the entity's occupied area is centered on it, and the
position is shifted by the difference of the two occupied-area positions. -/
def moveToCellPos (cfg : BoardConfig) (occRel : Area) (pos : Point)
    (row col : ℤ) : Point :=
  let cellArea := cellOccupiedArea cfg row col
  let actorArea := occRel.offset pos.x pos.y
  let newActorArea := actorArea.centerOnArea cellArea
  pos.offset (newActorArea.position.x - actorArea.position.x)
    (newActorArea.position.y - actorArea.position.y)

/-- Getter `Board.playerStartPosition`: last grid row, and the column
`Math.ceil((numberOfColumns - 1) / 2)`. -/
def playerStartRow (cfg : BoardConfig) : ℤ := (cfg.numberOfRows : ℤ) - 1

/-- The JavaScript `Math.floor` on an exact rational, in executable form
(`q.num / q.den` with integer division equals the mathematical floor, see
`jsFloor_eq`). -/
def jsFloor (q : ℚ) : ℤ := q.num / q.den

/-- The executable floor agrees with the mathematical floor. -/
lemma jsFloor_eq (q : ℚ) : jsFloor q = ⌊q⌋ :=
  Rat.floor_def.symm

/-- The JavaScript `Math.ceil` on an exact rational, in executable form. -/
def jsCeil (q : ℚ) : ℤ := -jsFloor (-q)

/-- The executable ceiling agrees with the mathematical ceiling. -/
lemma jsCeil_eq (q : ℚ) : jsCeil q = ⌈q⌉ := by
  rw [jsCeil, jsFloor_eq, Int.floor_neg, neg_neg]

/-- Column component of `Board.playerStartPosition`. -/
def playerStartCol (cfg : BoardConfig) : ℤ :=
  jsCeil (((cfg.numberOfColumns : ℚ) - 1) / 2)

/-- The `Player` constructor: grid position from `Board.playerStartPosition`,
score 0, and position snapped to that cell via `moveToCell` starting from
the default entity position (0, 0). -/
def mkPlayer (cfg : BoardConfig) : PlayerState :=
  { position := moveToCellPos cfg playerVisualOccupied ⟨0, 0⟩
      (playerStartRow cfg) (playerStartCol cfg)
    gridRow := playerStartRow cfg
    gridCol := playerStartCol cfg
    score := 0 }

/-- The four direction strings accepted by `Player.canMoveInGrid` and
`Player.moveInGrid`; any other input falls into default branches that are
not reachable from the engine's key map. -/
inductive Direction where
  | left : Direction
  | up : Direction
  | right : Direction
  | down : Direction
deriving DecidableEq, Repr

/-- Method `Player.canMoveInGrid(direction)`: bounds check of the adjacent
grid cell. -/
def canMoveInGrid (cfg : BoardConfig) (p : PlayerState) : Direction → Bool
  | .left => hasCell cfg p.gridRow (p.gridCol - 1)
  | .up => hasCell cfg (p.gridRow - 1) p.gridCol
  | .right => hasCell cfg p.gridRow (p.gridCol + 1)
  | .down => hasCell cfg (p.gridRow + 1) p.gridCol

/-- Method `Player.moveInGrid(direction)`: returns false and changes
nothing when the move is not permitted; otherwise adjusts the tracked grid
position, re-snaps the pixel position via `moveToCell`, and returns true. -/
def moveInGrid (cfg : BoardConfig) (p : PlayerState) (d : Direction) :
    Bool × PlayerState :=
  if canMoveInGrid cfg p d then
    let p1 :=
      match d with
      | .left => { p with gridCol := p.gridCol - 1 }
      | .up => { p with gridRow := p.gridRow - 1 }
      | .right => { p with gridCol := p.gridCol + 1 }
      | .down => { p with gridRow := p.gridRow + 1 }
    let newPos := moveToCellPos cfg playerVisualOccupied p.position
      p1.gridRow p1.gridCol
    (true, { p1 with position := newPos })
  else (false, p)

/-- The overridden `Player` position setter: its body is a single
`throw new Error('player entities are not allowed to move freely')`. -/
def playerSetPosition (p : PlayerState) (q : Point) : Except JSErr PlayerState :=
  .error (.thrown "player entities are not allowed to move freely")

/-- The overridden `Player.canMove`: its body is a single throw. -/
def playerCanMoveFree (p : PlayerState) (increment : Vec) : Except JSErr Bool :=
  .error (.thrown "player entities are not allowed to move freely, use canMoveInGrid instead")

/-- The overridden `Player.move`: its body is a single throw. -/
def playerMoveFree (p : PlayerState) (increment : Vec) :
    Except JSErr (Bool × PlayerState) :=
  .error (.thrown "player entities are not allowed to move freely, use moveInGrid instead")

/-- C9: for every player and every argument, assigning the position,
calling the free-form `canMove`, or calling the free-form `move` throws a
MisuseError-kind error; each body throws before touching any state, so no
player field (position, grid position, score) is ever modified — the
embedded operations return only the error, never an updated state. -/
theorem player_free_movement_always_throws (p : PlayerState) (q : Point) (v w : Vec) :
    playerSetPosition p q =
      .error (.thrown "player entities are not allowed to move freely") ∧
    playerCanMoveFree p v =
      .error (.thrown "player entities are not allowed to move freely, use canMoveInGrid instead") ∧
    playerMoveFree p w =
      .error (.thrown "player entities are not allowed to move freely, use moveInGrid instead") :=
  ⟨rfl, rfl, rfl⟩

/-- State of a generic (non-player) `Actor`: the boundary policy flag
together with the geometric fields its `canMove` would consult. -/
structure ActorState where
  position : Point
  visualOccupied : Area
  canMoveOutsideBoard : Bool
deriving DecidableEq, Repr

/-- Method `Actor.canMove(increment)`.  When `canMoveOutsideBoard` is set
the method returns true.  Otherwise the source evaluates `board.area`:
the identifier `board` is not in scope anywhere in app.js (engine.js keeps
its `board` variable inside an IIFE), so the lookup throws a
ReferenceError — and even with a board in scope, class `Board` has no
`area` getter, so the intersection test could never be performed.  The
non-permissive branch therefore always throws instead of returning a
Boolean. -/
def actorCanMove (a : ActorState) (increment : Vec) : Except JSErr Bool :=
  if a.canMoveOutsideBoard then .ok true
  else .error .referenceErr

/-- C5 (code bug): `Actor.canMove` returns true unconditionally when
`canMoveOutsideBoard` is set, but when the flag is false it never returns
the documented board-intersection test: it throws, because the identifier
`board` it dereferences is not defined and `Board` has no `area` getter. -/
theorem actor_canMove_flag_false_throws (a : ActorState) (v : Vec) :
    (a.canMoveOutsideBoard = true → actorCanMove a v = .ok true) ∧
    (a.canMoveOutsideBoard = false → actorCanMove a v = .error .referenceErr) := by
  constructor
  · intro h
    simp [actorCanMove, h]
  · intro h
    simp [actorCanMove, h]

/-- A concrete actor with the boundary flag set. -/
def sampleActorFree : ActorState := ⟨⟨0, 0⟩, ⟨⟨0, 0⟩, ⟨1, 1⟩⟩, true⟩

/-- A concrete actor with the boundary flag cleared. -/
def sampleActorBound : ActorState := ⟨⟨0, 0⟩, ⟨⟨0, 0⟩, ⟨1, 1⟩⟩, false⟩

/-- Witness for the C5 theorem at concrete actors with the flag set and
cleared. -/
theorem actor_canMove_flag_false_throws_witness :
    (sampleActorFree.canMoveOutsideBoard = true ∧
      actorCanMove sampleActorFree ⟨3, 4⟩ = .ok true) ∧
    (sampleActorBound.canMoveOutsideBoard = false ∧
      actorCanMove sampleActorBound ⟨3, 4⟩ = .error .referenceErr) :=
  ⟨⟨rfl, (actor_canMove_flag_false_throws sampleActorFree ⟨3, 4⟩).1 rfl⟩,
   ⟨rfl, (actor_canMove_flag_false_throws sampleActorBound ⟨3, 4⟩).2 rfl⟩⟩

/-- Centering property of `moveToCell`: after the reposition, the center of
the entity's occupied area equals the center of the target cell's occupied
area (exact rational arithmetic, no tolerance needed). -/
lemma moveToCellPos_center (cfg : BoardConfig) (occRel : Area) (pos : Point)
    (row col : ℤ) :
    (occRel.offset (moveToCellPos cfg occRel pos row col).x
      (moveToCellPos cfg occRel pos row col).y).center =
    (cellOccupiedArea cfg row col).center := by
  simp only [moveToCellPos, Area.centerOnArea, Area.centerOnPoint, Area.center,
    Area.offset, Point.offset]
  have hx : ∀ a b c d : ℚ, a = c → b = d → Point.mk a b = Point.mk c d := by
    intro a b c d h1 h2
    rw [h1, h2]
  apply hx <;> ring

/-- C3: for every player at a valid grid position, `moveInGrid("left")` at
column 0 returns false and leaves the grid position and the pixel position
unchanged; at column > 0 it returns true, decrements the column by exactly
1, and repositions the player so that its occupied-area center coincides
with the new cell's occupied-area center.  The analogous bounds-checked
behaviour holds for "up", "right" and "down" against the grid extents. -/
theorem player_moveInGrid_spec (cfg : BoardConfig) (p : PlayerState)
    (hr0 : 0 ≤ p.gridRow) (hrn : p.gridRow < (cfg.numberOfRows : ℤ))
    (hc0 : 0 ≤ p.gridCol) (hcn : p.gridCol < (cfg.numberOfColumns : ℤ)) :
    (p.gridCol = 0 → moveInGrid cfg p .left = (false, p)) ∧
    (0 < p.gridCol →
      (moveInGrid cfg p .left).1 = true ∧
      (moveInGrid cfg p .left).2.gridRow = p.gridRow ∧
      (moveInGrid cfg p .left).2.gridCol = p.gridCol - 1 ∧
      ((moveInGrid cfg p .left).2.occupiedArea).center =
        (cellOccupiedArea cfg p.gridRow (p.gridCol - 1)).center) ∧
    (p.gridRow = 0 → moveInGrid cfg p .up = (false, p)) ∧
    (0 < p.gridRow →
      (moveInGrid cfg p .up).1 = true ∧
      (moveInGrid cfg p .up).2.gridRow = p.gridRow - 1 ∧
      (moveInGrid cfg p .up).2.gridCol = p.gridCol ∧
      ((moveInGrid cfg p .up).2.occupiedArea).center =
        (cellOccupiedArea cfg (p.gridRow - 1) p.gridCol).center) ∧
    (p.gridCol = (cfg.numberOfColumns : ℤ) - 1 →
      moveInGrid cfg p .right = (false, p)) ∧
    (p.gridCol < (cfg.numberOfColumns : ℤ) - 1 →
      (moveInGrid cfg p .right).1 = true ∧
      (moveInGrid cfg p .right).2.gridRow = p.gridRow ∧
      (moveInGrid cfg p .right).2.gridCol = p.gridCol + 1 ∧
      ((moveInGrid cfg p .right).2.occupiedArea).center =
        (cellOccupiedArea cfg p.gridRow (p.gridCol + 1)).center) ∧
    (p.gridRow = (cfg.numberOfRows : ℤ) - 1 →
      moveInGrid cfg p .down = (false, p)) ∧
    (p.gridRow < (cfg.numberOfRows : ℤ) - 1 →
      (moveInGrid cfg p .down).1 = true ∧
      (moveInGrid cfg p .down).2.gridRow = p.gridRow + 1 ∧
      (moveInGrid cfg p .down).2.gridCol = p.gridCol ∧
      ((moveInGrid cfg p .down).2.occupiedArea).center =
        (cellOccupiedArea cfg (p.gridRow + 1) p.gridCol).center) := by
  refine ⟨?_, ?_, ?_, ?_, ?_, ?_, ?_, ?_⟩
  · intro h
    have : canMoveInGrid cfg p .left = false := by
      simp [canMoveInGrid, hasCell]
      omega
    simp [moveInGrid, this]
  · intro h
    have hcan : canMoveInGrid cfg p .left = true := by
      simp [canMoveInGrid, hasCell]
      omega
    refine ⟨by simp [moveInGrid, hcan], by simp [moveInGrid, hcan],
      by simp [moveInGrid, hcan], ?_⟩
    simp only [moveInGrid, hcan, if_true, PlayerState.occupiedArea]
    exact moveToCellPos_center cfg playerVisualOccupied p.position
      p.gridRow (p.gridCol - 1)
  · intro h
    have : canMoveInGrid cfg p .up = false := by
      simp [canMoveInGrid, hasCell]
      omega
    simp [moveInGrid, this]
  · intro h
    have hcan : canMoveInGrid cfg p .up = true := by
      simp [canMoveInGrid, hasCell]
      omega
    refine ⟨by simp [moveInGrid, hcan], by simp [moveInGrid, hcan],
      by simp [moveInGrid, hcan], ?_⟩
    simp only [moveInGrid, hcan, if_true, PlayerState.occupiedArea]
    exact moveToCellPos_center cfg playerVisualOccupied p.position
      (p.gridRow - 1) p.gridCol
  · intro h
    have : canMoveInGrid cfg p .right = false := by
      simp [canMoveInGrid, hasCell]
      omega
    simp [moveInGrid, this]
  · intro h
    have hcan : canMoveInGrid cfg p .right = true := by
      simp [canMoveInGrid, hasCell]
      omega
    refine ⟨by simp [moveInGrid, hcan], by simp [moveInGrid, hcan],
      by simp [moveInGrid, hcan], ?_⟩
    simp only [moveInGrid, hcan, if_true, PlayerState.occupiedArea]
    exact moveToCellPos_center cfg playerVisualOccupied p.position
      p.gridRow (p.gridCol + 1)
  · intro h
    have : canMoveInGrid cfg p .down = false := by
      simp [canMoveInGrid, hasCell]
      omega
    simp [moveInGrid, this]
  · intro h
    have hcan : canMoveInGrid cfg p .down = true := by
      simp [canMoveInGrid, hasCell]
      omega
    refine ⟨by simp [moveInGrid, hcan], by simp [moveInGrid, hcan],
      by simp [moveInGrid, hcan], ?_⟩
    simp only [moveInGrid, hcan, if_true, PlayerState.occupiedArea]
    exact moveToCellPos_center cfg playerVisualOccupied p.position
      (p.gridRow + 1) p.gridCol

/-- A concrete player standing at column 0 of the default board's bottom
row, used to exercise the boundary case of `moveInGrid`. -/
def playerAtColZero : PlayerState :=
  { position := ⟨-51/2, 451⟩, gridRow := 7, gridCol := 0, score := 0 }

/-- Witness for the C3 theorem: the default-board start player (row 7,
column 3) moves left into column 2 landing centered on that cell, and a
player at column 0 is refused with unchanged state. -/
theorem player_moveInGrid_spec_witness :
    (0 ≤ (mkPlayer defaultCfg).gridRow ∧
      (mkPlayer defaultCfg).gridRow < (defaultCfg.numberOfRows : ℤ) ∧
      0 ≤ (mkPlayer defaultCfg).gridCol ∧
      (mkPlayer defaultCfg).gridCol < (defaultCfg.numberOfColumns : ℤ) ∧
      0 < (mkPlayer defaultCfg).gridCol) ∧
    ((moveInGrid defaultCfg (mkPlayer defaultCfg) .left).1 = true ∧
      (moveInGrid defaultCfg (mkPlayer defaultCfg) .left).2.gridRow =
        (mkPlayer defaultCfg).gridRow ∧
      (moveInGrid defaultCfg (mkPlayer defaultCfg) .left).2.gridCol =
        (mkPlayer defaultCfg).gridCol - 1 ∧
      ((moveInGrid defaultCfg (mkPlayer defaultCfg) .left).2.occupiedArea).center =
        (cellOccupiedArea defaultCfg (mkPlayer defaultCfg).gridRow
          ((mkPlayer defaultCfg).gridCol - 1)).center) ∧
    (playerAtColZero.gridCol = 0 ∧
      moveInGrid defaultCfg playerAtColZero .left = (false, playerAtColZero)) :=
  ⟨⟨by norm_num [mkPlayer, playerStartRow, defaultCfg, BoardConfig.numberOfRows],
    by norm_num [mkPlayer, playerStartRow, defaultCfg, BoardConfig.numberOfRows],
    by norm_num [mkPlayer, playerStartCol, defaultCfg, jsCeil, jsFloor],
    by norm_num [mkPlayer, playerStartCol, defaultCfg, jsCeil, jsFloor],
    by norm_num [mkPlayer, playerStartCol, defaultCfg, jsCeil, jsFloor]⟩,
   (player_moveInGrid_spec defaultCfg (mkPlayer defaultCfg)
      (by norm_num [mkPlayer, playerStartRow, defaultCfg, BoardConfig.numberOfRows])
      (by norm_num [mkPlayer, playerStartRow, defaultCfg, BoardConfig.numberOfRows])
      (by norm_num [mkPlayer, playerStartCol, defaultCfg, jsCeil, jsFloor])
      (by norm_num [mkPlayer, playerStartCol, defaultCfg, jsCeil, jsFloor])).2.1
      (by norm_num [mkPlayer, playerStartCol, defaultCfg, jsCeil, jsFloor]),
   ⟨by decide,
    (player_moveInGrid_spec defaultCfg playerAtColZero
      (by decide) (by norm_num [playerAtColZero, defaultCfg, BoardConfig.numberOfRows])
      (by decide) (by norm_num [playerAtColZero, defaultCfg])).1 (by decide)⟩⟩

/-- Getter `Entity.someOnTheBoard`: the entity's occupied area intersects
the grid's total occupied area. -/
def someOnTheBoard (cfg : BoardConfig) (e : Ent) : Bool :=
  e.occupiedArea.intersectsArea (gridOccupiedArea cfg)

/-- The `Enemy` constructor with a given `moveIncrement`: sprite from the
sign of the horizontal increment, dimensions cloned from the cell visual
template, the hard-coded occupied sub-rectangle, zIndex 200, the
`hitScoreIncrement` -2 and `removeOnHit` false that `spawnEnemy` passes,
position left at the `Entity` default (0, 0), `respawnOnNextUpdate` false.
The constructor pins `canMoveOutsideBoard` to true, which is why
`enemyUpdate` below can take `Actor.move`'s permissive branch directly. -/
def mkEnemy (cfg : BoardConfig) (mi : Vec) : Ent :=
  { sprite := if 0 ≤ mi.x then "images/enemy-right.png" else "images/enemy-left.png"
    position := ⟨0, 0⟩
    visualDims := some cfg.cellTemplateDims
    visualOccupied := ⟨⟨2, 102⟩, ⟨96, 42⟩⟩
    zIndex := 200
    hitScoreIncrement := -2
    removeOnHit := false
    kind := .enemy mi false }

/-- Getter `Entity.area`: position with the full visual dimensions.  Only
entities whose constructor sets dimensions (enemies, blood props) ever
have it read; the default is never exercised on the modelled paths. -/
def Ent.area (e : Ent) : Area :=
  ⟨e.position, e.visualDims.getD ⟨0, 0⟩⟩

/-- Method `Enemy.update(dt)`: `move` with `moveIncrement * dt` — since
the constructor pins `canMoveOutsideBoard`, `Actor.canMove` returns true
and the position simply advances — followed by
`respawnOnNextUpdate = !someOnTheBoard`. -/
def enemyUpdate (cfg : BoardConfig) (e : Ent) (dt : ℚ) : Ent :=
  match e.kind with
  | .enemy mi _ =>
    let moved := { e with position := e.position.offset (mi.x * dt) (mi.y * dt) }
    { moved with kind := .enemy mi (!someOnTheBoard cfg moved) }
  | _ => e

/-- C4: for every enemy with a horizontal-only move increment and every
dt, `update(dt)` increases position.x by exactly `moveIncrement.x * dt`,
leaves position.y unchanged, and afterwards `respawnOnNextUpdate` holds
exactly when the enemy's (post-move) occupied area does not intersect the
grid's total occupied area. -/
theorem enemy_update_spec (cfg : BoardConfig) (e : Ent) (mi : Vec) (f : Bool)
    (dt : ℚ) (hk : e.kind = .enemy mi f) (hy : mi.y = 0) :
    (enemyUpdate cfg e dt).position.x = e.position.x + mi.x * dt ∧
    (enemyUpdate cfg e dt).position.y = e.position.y ∧
    ((enemyUpdate cfg e dt).respawnOnNextUpdate = true ↔
      (enemyUpdate cfg e dt).occupiedArea.intersectsArea (gridOccupiedArea cfg)
        = false) := by
  obtain ⟨spr, pos, vd, vo, z, hs, r, k⟩ := e
  simp only at hk
  subst hk
  refine ⟨?_, ?_, ?_⟩
  · simp [enemyUpdate, Point.offset]
  · simp [enemyUpdate, Point.offset, hy]
  · simp only [enemyUpdate, Ent.respawnOnNextUpdate, someOnTheBoard,
      Ent.occupiedArea]
    constructor
    · intro h
      simpa using h
    · intro h
      simpa using h

/-- A concrete enemy standing on the default board. -/
def sampleEnemy : Ent :=
  { mkEnemy defaultCfg ⟨20, 0⟩ with position := ⟨10, 100⟩ }

/-- Witness for the C4 theorem at a concrete enemy and dt = 1. -/
theorem enemy_update_spec_witness :
    (sampleEnemy.kind = .enemy ⟨20, 0⟩ false ∧ (20 : ℚ) = 20 ∧ (0 : ℚ) = 0) ∧
    ((enemyUpdate defaultCfg sampleEnemy 1).position.x =
        sampleEnemy.position.x + 20 * 1 ∧
      (enemyUpdate defaultCfg sampleEnemy 1).position.y =
        sampleEnemy.position.y ∧
      ((enemyUpdate defaultCfg sampleEnemy 1).respawnOnNextUpdate = true ↔
        (enemyUpdate defaultCfg sampleEnemy 1).occupiedArea.intersectsArea
          (gridOccupiedArea defaultCfg) = false)) :=
  ⟨⟨rfl, rfl, rfl⟩,
   enemy_update_spec defaultCfg sampleEnemy ⟨20, 0⟩ false 1 rfl rfl⟩

/-- Function `randBetween(min, max)`:
`Math.floor(Math.random() * (max - min + 1) + min)`, with the n-th stream
draw standing for the `Math.random()` result. -/
def randBetween (rng : ℕ → ℚ) (n : ℕ) (mn mx : ℚ) : ℤ :=
  jsFloor (rng n * (mx - mn + 1) + mn)

/-- Integer bounds of `randBetween` for a draw in [0,1) and integer
endpoints mn ≤ mx. -/
lemma randBetween_bounds (rng : ℕ → ℚ) (n : ℕ) (mn mx : ℤ)
    (hr0 : 0 ≤ rng n) (hr1 : rng n < 1) (hle : mn ≤ mx) :
    mn ≤ randBetween rng n mn mx ∧ randBetween rng n mn mx ≤ mx := by
  have hspan : (0 : ℚ) < (mx : ℚ) - mn + 1 := by
    have : (mn : ℚ) ≤ (mx : ℚ) := by exact_mod_cast hle
    linarith
  have hlow : (mn : ℚ) ≤ rng n * ((mx : ℚ) - mn + 1) + mn := by
    nlinarith
  have hhigh : rng n * ((mx : ℚ) - mn + 1) + mn < (mx : ℚ) + 1 := by
    nlinarith
  rw [randBetween, jsFloor_eq]
  constructor
  · exact Int.le_floor.mpr hlow
  · have h2 : rng n * ((mx : ℚ) - mn + 1) + mn < ((mx + 1 : ℤ) : ℚ) := by
      push_cast
      linarith
    have hlt := Int.floor_lt.mpr h2
    omega

/-- The road-row index list of `spawnEnemy`:
`grid.rowTypes.map((row, index) => row === "road" ? index : -1)` followed
by `.filter(index => index != -1)`.  (The `rowTypes` getter reads the type
of the first stored cell of each row, which for a populated grid is the
configured row type list.) -/
def roadRowIndices (cfg : BoardConfig) : List ℤ :=
  ((List.range cfg.numberOfRows).map fun i =>
    if rowTypeAt cfg i = CellType.road then (i : ℤ) else -1).filter
      fun i => i != -1

/-- Every entry of `roadRowIndices` is an in-range row index whose row
type is road. -/
lemma roadRowIndices_mem (cfg : BoardConfig) (r : ℤ)
    (h : r ∈ roadRowIndices cfg) :
    0 ≤ r ∧ r < (cfg.numberOfRows : ℤ) ∧ rowTypeAt cfg r.toNat = CellType.road := by
  simp only [roadRowIndices, List.mem_filter, List.mem_map, List.mem_range] at h
  obtain ⟨⟨i, hi, hval⟩, hne⟩ := h
  by_cases hroad : rowTypeAt cfg i = CellType.road
  · rw [if_pos hroad] at hval
    subst hval
    refine ⟨by omega, by omega, ?_⟩
    simpa using hroad
  · rw [if_neg hroad] at hval
    subst hval
    simp at hne

/-- If some row type is road, the road-row index list is nonempty. -/
lemma roadRowIndices_ne_nil (cfg : BoardConfig)
    (h : CellType.road ∈ cfg.rowTypes) : roadRowIndices cfg ≠ [] := by
  obtain ⟨i, hi, hval⟩ := List.mem_iff_getElem.mp h
  intro hnil
  have hmem : (i : ℤ) ∈ roadRowIndices cfg := by
    simp only [roadRowIndices, List.mem_filter, List.mem_map, List.mem_range]
    refine ⟨⟨i, hi, ?_⟩, by simp⟩
    rw [if_pos]
    rw [rowTypeAt, List.getD, List.get?_eq_getElem?, List.getElem?_eq_getElem hi]
    simpa using hval
  rw [hnil] at hmem
  simp at hmem

/-- Method `Board.spawnEnemy()`: draws a direction, a road row and a speed
from three successive random draws, builds the enemy, snaps it to the
boundary cell of the chosen road row via `moveToCell`, and then offsets it
horizontally by the source's sprite-width expression so it enters from
off-screen.  Returns the enemy and the advanced draw counter.  (The source
reads the chosen row with an unchecked `roadRowIndices[roadIndex]`; the
`getD 0` here is only evaluated under the theorems' hypotheses that draws
lie in [0,1) and a road row exists, which make the access in-bounds.) -/
def spawnEnemy (cfg : BoardConfig) (rng : ℕ → ℚ) (n : ℕ) : Ent × ℕ :=
  let direction : ℤ := if randBetween rng n 0 1 = 1 then 1 else -1
  let roadIdxs := roadRowIndices cfg
  let roadIndex := randBetween rng (n + 1) 0 ((roadIdxs.length : ℚ) - 1)
  let cellRowIndex : ℤ := (jsIndex roadIdxs roadIndex).getD 0
  let cellColumnIndex : ℤ :=
    if direction = 1 then 0 else (cfg.numberOfColumns : ℤ) - 1
  let speed : ℚ := (randBetween rng (n + 2)
    ((direction : ℚ) * cfg.enemyIncrementMin)
    ((direction : ℚ) * cfg.enemyIncrementMax) : ℤ)
  let e0 := mkEnemy cfg ⟨speed, 0⟩
  let snappedPos := moveToCellPos cfg e0.visualOccupied e0.position
    cellRowIndex cellColumnIndex
  let e1 := { e0 with position := snappedPos }
  let offsetX : ℚ :=
    if direction = 1 then
      -1 * (e1.area.dimensions.width -
        (e1.area.topRight.x - e1.occupiedArea.topRight.x))
    else
      e1.area.dimensions.width -
        (e1.area.topLeft.x - e1.occupiedArea.topLeft.x)
  ({ e1 with position := e1.position.offset offsetX 0 }, n + 3)

/-- Geometry of a direction-right spawn: with the standard cell template
occupied sub-rectangle, whatever road row is chosen, the spawned enemy's
occupied area sits at x from -191/2 to 1/2 (the snap to column 0 puts the
occupied area's center at x = 101/2, and the sprite-width offset then
shifts the position by exactly -98, the full-visual width cancelling). -/
lemma spawnEnemy_right_occ (cfg : BoardConfig) (rng : ℕ → ℚ) (n : ℕ) (r : ℤ)
    (hTpl : cfg.cellTemplateOccupied = ⟨⟨0, 52⟩, ⟨101, 83⟩⟩)
    (hDir : randBetween rng n 0 1 = 1)
    (hr : jsIndex (roadRowIndices cfg)
      (randBetween rng (n + 1) 0 (((roadRowIndices cfg).length : ℚ) - 1)) = some r) :
    (spawnEnemy cfg rng n).1.occupiedArea =
      ⟨⟨-(191/2), 83 * r + 145/2⟩, ⟨96, 42⟩⟩ := by
  simp only [spawnEnemy, hDir, hr, if_pos, Option.getD_some, reduceIte,
    mkEnemy, moveToCellPos, cellOccupiedArea, cellVisualOccupied,
    calculateCellPosition, Area.centerOnArea, Area.centerOnPoint, Area.center,
    Area.offset, Point.offset, Ent.area, Ent.occupiedArea, Area.topRight,
    Area.topLeft, hTpl, Option.getD_none]
  simp only [Area.mk.injEq, Point.mk.injEq, Dimensions.mk.injEq]
  norm_num
  constructor <;> ring

/-- C6 (corrected): a direction-right `spawnEnemy` places the enemy's
occupied area from x = -191/2 to x = 1/2: fully outside the board's left
edge except for a half-pixel overlap.  Because of that overlap,
`someOnTheBoard` is already true at spawn time, not false as claimed. -/
theorem spawnEnemy_right_spec (cfg : BoardConfig) (rng : ℕ → ℚ) (n : ℕ)
    (hTpl : cfg.cellTemplateOccupied = ⟨⟨0, 52⟩, ⟨101, 83⟩⟩)
    (hCols : 1 ≤ cfg.numberOfColumns)
    (hRoad : CellType.road ∈ cfg.rowTypes)
    (hr0 : 0 ≤ rng (n + 1)) (hr1 : rng (n + 1) < 1)
    (hDir : randBetween rng n 0 1 = 1) :
    (spawnEnemy cfg rng n).1.occupiedArea.position.x = -(191/2) ∧
    (spawnEnemy cfg rng n).1.occupiedArea.topRight.x = 1/2 ∧
    someOnTheBoard cfg (spawnEnemy cfg rng n).1 = true := by
  have hne := roadRowIndices_ne_nil cfg hRoad
  have hlen : 1 ≤ (roadRowIndices cfg).length := by
    cases hidxs : roadRowIndices cfg with
    | nil => exact absurd hidxs hne
    | cons a l => simp
  have hb := randBetween_bounds rng (n + 1) 0 ((roadRowIndices cfg).length - 1)
    hr0 hr1 (by omega)
  push_cast at hb
  have htn : (randBetween rng (n + 1) 0 (((roadRowIndices cfg).length : ℚ) - 1)).toNat
      < (roadRowIndices cfg).length := by omega
  have hsome : jsIndex (roadRowIndices cfg)
      (randBetween rng (n + 1) 0 (((roadRowIndices cfg).length : ℚ) - 1)) =
      some ((roadRowIndices cfg).get ⟨(randBetween rng (n + 1) 0
        (((roadRowIndices cfg).length : ℚ) - 1)).toNat, htn⟩) := by
    simp only [jsIndex, if_pos hb.1, List.getElem?_eq_getElem htn,
      List.get_eq_getElem]
  have hmem := roadRowIndices_mem cfg _
    (show (roadRowIndices cfg).get ⟨(randBetween rng (n + 1) 0
      (((roadRowIndices cfg).length : ℚ) - 1)).toNat, htn⟩ ∈
      roadRowIndices cfg from by simp)
  have hocc := spawnEnemy_right_occ cfg rng n _ hTpl hDir hsome
  obtain ⟨hrpos, hrlt, _⟩ := hmem
  refine ⟨by rw [hocc], by rw [hocc]; norm_num [Area.topRight], ?_⟩
  set r := (roadRowIndices cfg).get ⟨(randBetween rng (n + 1) 0
    (((roadRowIndices cfg).length : ℚ) - 1)).toNat, htn⟩ with hrdef
  have hrq0 : (0 : ℚ) ≤ (r : ℚ) := by exact_mod_cast hrpos
  have hrqlt : (r : ℚ) ≤ (cfg.numberOfRows : ℚ) - 1 := by
    have : r ≤ (cfg.numberOfRows : ℤ) - 1 := by omega
    exact_mod_cast this
  have hcq : (1 : ℚ) ≤ (cfg.numberOfColumns : ℚ) := by exact_mod_cast hCols
  simp only [someOnTheBoard, hocc, gridOccupiedArea, hTpl, Area.intersectsArea,
    Area.corners, Area.topLeft, Area.topRight, Area.bottomLeft,
    Area.bottomRight, Area.containsPoint, List.any_cons, List.any_nil,
    Bool.or_eq_true, Bool.and_eq_true, decide_eq_true_eq, Bool.or_false]
  refine Or.inr (Or.inr (Or.inl ⟨⟨⟨?_, ?_⟩, ?_⟩, ?_⟩))
  · norm_num
  · nlinarith
  · linarith
  · linarith

/-- A concrete random stream: every `Math.random()` draw returns 1/2. -/
def halfRng : ℕ → ℚ := fun _ => 1/2

/-- C6 counterexample: on the default configuration, with draws of 1/2,
`spawnEnemy` picks direction right (the first draw yields index 1), yet
`someOnTheBoard` is already true at spawn time — the claim says it must be
false until enough updates have run. -/
theorem spawn_right_someOnTheBoard_true_at_spawn :
    randBetween halfRng 0 0 1 = 1 ∧
    someOnTheBoard defaultCfg (spawnEnemy defaultCfg halfRng 0).1 = true := by
  have hdir : randBetween halfRng 0 0 1 = 1 := by
    norm_num [randBetween, halfRng, jsFloor_eq]
  have h1 : roadRowIndices defaultCfg = [1, 2, 3, 4, 5] := by decide
  have hsome : jsIndex (roadRowIndices defaultCfg)
      (randBetween halfRng 1 0 (((roadRowIndices defaultCfg).length : ℚ) - 1)) =
      some 3 := by
    rw [h1]
    have h2 : randBetween halfRng 1 0 ((([1, 2, 3, 4, 5] :
        List ℤ).length : ℚ) - 1) = 2 := by
      norm_num [randBetween, halfRng, jsFloor_eq]
    rw [h2]
    decide
  have hocc := spawnEnemy_right_occ defaultCfg halfRng 0 3 rfl hdir hsome
  have hgrid : gridOccupiedArea defaultCfg = ⟨⟨0, 52⟩, ⟨707, 664⟩⟩ := by
    simp only [gridOccupiedArea, defaultCfg, BoardConfig.numberOfRows,
      Area.mk.injEq, Point.mk.injEq, Dimensions.mk.injEq]
    norm_num
  refine ⟨hdir, ?_⟩
  simp only [someOnTheBoard, hocc, hgrid, Area.intersectsArea, Area.corners,
    Area.topLeft, Area.topRight, Area.bottomLeft, Area.bottomRight,
    Area.containsPoint, List.any_cons, List.any_nil, Bool.or_eq_true,
    Bool.and_eq_true, decide_eq_true_eq, Bool.or_false]
  refine Or.inr (Or.inr (Or.inl ⟨⟨⟨?_, ?_⟩, ?_⟩, ?_⟩)) <;> norm_num

/-- Witness for the corrected C6 theorem at the default configuration and
the constant 1/2 stream. -/
theorem spawnEnemy_right_spec_witness :
    (defaultCfg.cellTemplateOccupied = ⟨⟨0, 52⟩, ⟨101, 83⟩⟩ ∧
      1 ≤ defaultCfg.numberOfColumns ∧
      CellType.road ∈ defaultCfg.rowTypes ∧
      0 ≤ halfRng 1 ∧ halfRng 1 < 1 ∧ randBetween halfRng 0 0 1 = 1) ∧
    ((spawnEnemy defaultCfg halfRng 0).1.occupiedArea.position.x = -(191/2) ∧
      (spawnEnemy defaultCfg halfRng 0).1.occupiedArea.topRight.x = 1/2 ∧
      someOnTheBoard defaultCfg (spawnEnemy defaultCfg halfRng 0).1 = true) :=
  ⟨⟨rfl, by decide, by decide, by norm_num [halfRng], by norm_num [halfRng],
    by norm_num [randBetween, halfRng, jsFloor_eq]⟩,
   spawnEnemy_right_spec defaultCfg halfRng 0 rfl (by decide) (by decide)
     (by norm_num [halfRng]) (by norm_num [halfRng])
     (by norm_num [randBetween, halfRng, jsFloor_eq])⟩

/-- Check for the blood marker prop created by `Player.bleed`. -/
def Ent.isBlood (e : Ent) : Bool :=
  match e.kind with
  | .bloodProp => true
  | _ => false

/-- Method `Entity.touches` with the player as receiver:
`player.occupiedArea.intersectsWith(entity.occupiedArea)`. -/
def playerTouches (p : PlayerState) (e : Ent) : Bool :=
  p.occupiedArea.intersectsArea e.occupiedArea

/-- Method `Player.bleed(direction)`: the blood prop it pushes — sprite by
the sign of the killing enemy's horizontal speed, dimensions from the cell
visual template (no explicit occupied area, so the `EntityVisual`
constructor uses the full-sprite rectangle), zIndex 100, placed at the
player's current position. -/
def bloodEnt (cfg : BoardConfig) (direction : ℚ) (pos : Point) : Ent :=
  { sprite := if 0 ≤ direction then "images/blood-right.png" else "images/blood-left.png"
    position := pos
    visualDims := some cfg.cellTemplateDims
    visualOccupied := ⟨⟨0, 0⟩, cfg.cellTemplateDims⟩
    zIndex := 100
    hitScoreIncrement := 0
    removeOnHit := false
    kind := .bloodProp }

/-- State of a `Board` between frames: the non-player entity array, the
player, and the position reached in the random draw stream. -/
structure UpdState where
  entities : List Ent
  player : PlayerState
  rngK : ℕ
deriving DecidableEq, Repr

/-- Method `Board.respawnPlayer(keepScore)`: a fresh `Player` at the start
cell, carrying over the old score when `keepScore` is set. -/
def respawnedPlayer (cfg : BoardConfig) (keepScore : Bool)
    (old : PlayerState) : PlayerState :=
  let fresh := mkPlayer cfg
  if keepScore then { fresh with score := old.score } else fresh

/-- One iteration of the `Board.update(dt)` loop at `index`, mirroring the
source statement by statement: fetch the entity; if the player touches it,
add its `hitScoreIncrement` to the score, splice it out when `removeOnHit`,
on an `Enemy` push a blood prop (the local `entity` reference is used for
the direction and the player's current position for the placement) and
respawn the player keeping the score, on a water cell respawn the player
keeping the score; then, if the fetched entity is an `Enemy`, run its
`update(dt)` (the in-place mutation is a `set` when the entity was not
spliced) and, when it flags `respawnOnNextUpdate`, splice position `index`
and push a newly spawned enemy. -/
def processIndex (cfg : BoardConfig) (rng : ℕ → ℚ) (dt : ℚ) (st : UpdState)
    (index : ℕ) : UpdState :=
  match st.entities[index]? with
  | none => st
  | some entity =>
    let touched := playerTouches st.player entity
    let player1 := if touched
      then { st.player with score := st.player.score + entity.hitScoreIncrement }
      else st.player
    let ents1 := if touched && entity.removeOnHit
      then st.entities.eraseIdx index else st.entities
    let ents2 := if touched && entity.isEnemy
      then ents1 ++ [bloodEnt cfg entity.moveInc.x st.player.position] else ents1
    let player2 := if touched && entity.isEnemy
      then respawnedPlayer cfg true player1 else player1
    let player3 := if touched && entity.isWaterCell
      then respawnedPlayer cfg true player2 else player2
    if entity.isEnemy then
      let e2 := enemyUpdate cfg entity dt
      let ents3 := if touched && entity.removeOnHit then ents2
        else ents2.set index e2
      if e2.respawnOnNextUpdate then
        let spawned := spawnEnemy cfg rng st.rngK
        { entities := (ents3.eraseIdx index) ++ [spawned.1]
          player := player3
          rngK := spawned.2 }
      else { entities := ents3, player := player3, rngK := st.rngK }
    else { entities := ents2, player := player3, rngK := st.rngK }

/-- The backwards for-loop of `Board.update(dt)`: counter `k` means the
indices `k-1, k-2, ..., 0` are still to be processed. -/
def updateLoop (cfg : BoardConfig) (rng : ℕ → ℚ) (dt : ℚ) :
    UpdState → ℕ → UpdState
  | st, 0 => st
  | st, k + 1 => updateLoop cfg rng dt (processIndex cfg rng dt st k) k

/-- Method `Board.update(dt)`: run the loop from the last index of the
entity array downwards. -/
def boardUpdate (cfg : BoardConfig) (rng : ℕ → ℚ) (dt : ℚ)
    (st : UpdState) : UpdState :=
  updateLoop cfg rng dt st st.entities.length

/-- Erasing an element on which the predicate fails leaves the filtered
list unchanged. -/
lemma filter_eraseIdx_of_not {α : Type} (p : α → Bool) :
    ∀ (l : List α) (i : ℕ) (y : α), l[i]? = some y → p y = false →
      (l.eraseIdx i).filter p = l.filter p
  | [], i, y, h, _ => by simp at h
  | a :: l, 0, y, h, hp => by
    simp only [List.getElem?_cons_zero, Option.some.injEq] at h
    subst h
    simp [List.filter_cons, hp]
  | a :: l, i + 1, y, h, hp => by
    simp only [List.getElem?_cons_succ] at h
    simp [List.filter_cons, filter_eraseIdx_of_not p l i y h hp]

/-- Replacing an element on which the predicate fails by another such
element leaves the filtered list unchanged. -/
lemma filter_set_of_not {α : Type} (p : α → Bool) :
    ∀ (l : List α) (i : ℕ) (y x : α), l[i]? = some y → p y = false →
      p x = false → (l.set i x).filter p = l.filter p
  | [], i, y, x, h, _, _ => by simp at h
  | a :: l, 0, y, x, h, hp, hx => by
    simp only [List.getElem?_cons_zero, Option.some.injEq] at h
    subst h
    simp [List.filter_cons, hp, hx]
  | a :: l, i + 1, y, x, h, hp, hx => by
    simp only [List.getElem?_cons_succ] at h
    simp [List.filter_cons, filter_set_of_not p l i y x h hp hx]

/-- Erasing an element on which the predicate fails preserves the count. -/
lemma countP_eraseIdx_of_not {α : Type} (p : α → Bool) :
    ∀ (l : List α) (i : ℕ) (y : α), l[i]? = some y → p y = false →
      (l.eraseIdx i).countP p = l.countP p := by
  intro l i y h hp
  rw [List.countP_eq_length_filter, List.countP_eq_length_filter,
    filter_eraseIdx_of_not p l i y h hp]

/-- Replacing an element by one with the same predicate value preserves
the count. -/
lemma countP_set_of_same {α : Type} (p : α → Bool) :
    ∀ (l : List α) (i : ℕ) (y x : α), l[i]? = some y → p y = p x →
      (l.set i x).countP p = l.countP p
  | [], i, y, x, h, _ => by simp at h
  | a :: l, 0, y, x, h, hp => by
    simp only [List.getElem?_cons_zero, Option.some.injEq] at h
    subst h
    simp [List.countP_cons, hp]
  | a :: l, i + 1, y, x, h, hp => by
    simp only [List.getElem?_cons_succ] at h
    simp [List.countP_cons, countP_set_of_same p l i y x h hp]

/-- Setting at the boundary of an append. -/
lemma set_append_cons {α : Type} :
    ∀ (l1 : List α) (a : α) (l2 : List α) (x : α),
      (l1 ++ a :: l2).set l1.length x = l1 ++ x :: l2
  | [], _, _, _ => rfl
  | b :: l1, a, l2, x => by
    simp only [List.cons_append, List.length_cons, List.set_cons_succ]
    rw [set_append_cons l1 a l2 x]

/-- Erasing at the boundary of an append. -/
lemma eraseIdx_append_cons {α : Type} :
    ∀ (l1 : List α) (a : α) (l2 : List α),
      (l1 ++ a :: l2).eraseIdx l1.length = l1 ++ l2
  | [], _, _ => rfl
  | b :: l1, a, l2 => by
    simp only [List.cons_append, List.length_cons, List.eraseIdx_cons_succ]
    rw [eraseIdx_append_cons l1 a l2]

/-- Reading at the boundary of an append. -/
lemma getElem?_append_cons {α : Type} :
    ∀ (l1 : List α) (a : α) (l2 : List α),
      (l1 ++ a :: l2)[l1.length]? = some a
  | [], _, _ => by simp
  | b :: l1, a, l2 => by
    simp only [List.cons_append, List.length_cons, List.getElem?_cons_succ]
    exact getElem?_append_cons l1 a l2

/-- Slot below `n` after set-erase-append at `n`. -/
lemma chain_set_erase_append {α : Type} (l : List α) (x s : α) (n j : ℕ)
    (hj : j < n) (hn : n < l.length) :
    (((l.set n x).eraseIdx n) ++ [s])[j]? = l[j]? := by
  have h1 : ((l.set n x).eraseIdx n).length = l.length - 1 := by
    rw [List.length_eraseIdx_of_lt (by simpa using hn)]
    simp
  rw [List.getElem?_append_left (by omega),
    List.getElem?_eraseIdx_of_lt _ _ _ hj, List.getElem?_set_ne (by omega)]

/-- Slot below `n` after append-then-set at `n`. -/
lemma chain_append_set {α : Type} (l : List α) (b x : α) (n j : ℕ)
    (hj : j < n) (hn : n < l.length) :
    ((l ++ [b]).set n x)[j]? = l[j]? := by
  rw [List.getElem?_set_ne (by omega), List.getElem?_append_left (by omega)]

/-- Slot below `n` after append, set at `n`, erase at `n`, append. -/
lemma chain_append_set_erase_append {α : Type} (l : List α) (b x s : α)
    (n j : ℕ) (hj : j < n) (hn : n < l.length) :
    ((((l ++ [b]).set n x).eraseIdx n) ++ [s])[j]? = l[j]? := by
  have h1 : (((l ++ [b]).set n x).eraseIdx n).length = l.length := by
    rw [List.length_eraseIdx_of_lt (by simp; omega)]
    simp
  rw [List.getElem?_append_left (by omega),
    List.getElem?_eraseIdx_of_lt _ _ _ hj, List.getElem?_set_ne (by omega),
    List.getElem?_append_left (by omega)]

/-- Slot below `n` after erase at `n` then append. -/
lemma chain_erase_append {α : Type} (l : List α) (b : α) (n j : ℕ)
    (hj : j < n) (hn : n < l.length) :
    ((l.eraseIdx n) ++ [b])[j]? = l[j]? := by
  have h1 : (l.eraseIdx n).length = l.length - 1 :=
    List.length_eraseIdx_of_lt hn
  rw [List.getElem?_append_left (by omega),
    List.getElem?_eraseIdx_of_lt _ _ _ hj]

/-- Slot below `n` after erase, append, erase, append at `n`. -/
lemma chain_erase_append_erase_append {α : Type} (l : List α) (b s : α)
    (n j : ℕ) (hj : j < n) (hn : n < l.length) :
    ((((l.eraseIdx n) ++ [b]).eraseIdx n) ++ [s])[j]? = l[j]? := by
  have h1 : (l.eraseIdx n).length = l.length - 1 :=
    List.length_eraseIdx_of_lt hn
  have h2 : (((l.eraseIdx n) ++ [b]).eraseIdx n).length = l.length - 1 := by
    rw [List.length_eraseIdx_of_lt (by simp; omega)]
    simp
    omega
  rw [List.getElem?_append_left (by omega),
    List.getElem?_eraseIdx_of_lt _ _ _ hj,
    List.getElem?_append_left (by omega),
    List.getElem?_eraseIdx_of_lt _ _ _ hj]

/-- A `Board.update` iteration at `index` changes no entity slot below
`index`: the splices and the in-place enemy mutation happen at `index`,
pushes happen at the end of the array. -/
lemma processIndex_getElem_lt (cfg : BoardConfig) (rng : ℕ → ℚ) (dt : ℚ)
    (st : UpdState) (index j : ℕ) (hj : j < index) :
    (processIndex cfg rng dt st index).entities[j]? = st.entities[j]? := by
  cases he : st.entities[index]? with
  | none => simp [processIndex, he]
  | some e =>
    have hidx : index < st.entities.length := by
      by_contra hcon
      rw [List.getElem?_eq_none (by omega)] at he
      exact Option.noConfusion he
    have hne : index ≠ j := by omega
    cases htch : playerTouches st.player e
    all_goals cases hrm : e.removeOnHit
    all_goals cases hen : e.isEnemy
    all_goals cases hfl : (enemyUpdate cfg e dt).respawnOnNextUpdate
    all_goals
      simp only [processIndex, he, htch, hrm, hen, hfl, Bool.true_and,
        Bool.false_and, Bool.and_true, Bool.and_false, if_true, if_false,
        Bool.and_self, ite_true, ite_false]
    all_goals
      first
      | rfl
      | exact List.getElem?_set_ne hne
      | exact List.getElem?_eraseIdx_of_lt _ _ _ hj
      | exact chain_set_erase_append _ _ _ _ _ hj hidx
      | exact chain_append_set _ _ _ _ _ hj hidx
      | exact chain_append_set_erase_append _ _ _ _ _ _ hj hidx
      | exact chain_erase_append _ _ _ _ hj hidx
      | exact chain_erase_append_erase_append _ _ _ _ _ hj hidx

/-- The blood props contained in an entity list. -/
def bloods (l : List Ent) : List Ent := l.filter Ent.isBlood

/-- An entity is a harmless touch for the player at a given state: either
they do not touch, or the touch changes nothing (no score increment, no
removal, not an enemy, not a water cell). -/
def HarmlessTouch (p : PlayerState) (e : Ent) : Prop :=
  playerTouches p e = true →
    e.hitScoreIncrement = 0 ∧ e.removeOnHit = false ∧ e.isEnemy = false ∧
    e.isWaterCell = false

/-- An enemy is never the blood prop. -/
lemma isEnemy_not_isBlood (e : Ent) (h : e.isEnemy = true) :
    e.isBlood = false := by
  cases hk : e.kind <;> simp [Ent.isBlood, Ent.isEnemy, hk] at h ⊢

/-- `Enemy.update` does not change the entity's class. -/
lemma enemyUpdate_isBlood (cfg : BoardConfig) (e : Ent) (dt : ℚ) :
    (enemyUpdate cfg e dt).isBlood = e.isBlood := by
  cases hk : e.kind <;> simp [enemyUpdate, Ent.isBlood, hk]

/-- `Enemy.update` does not change the entity's class. -/
lemma enemyUpdate_isEnemy (cfg : BoardConfig) (e : Ent) (dt : ℚ) :
    (enemyUpdate cfg e dt).isEnemy = e.isEnemy := by
  cases hk : e.kind <;> simp [enemyUpdate, Ent.isEnemy, hk]

/-- `Enemy.update` does not change `removeOnHit`. -/
lemma enemyUpdate_removeOnHit (cfg : BoardConfig) (e : Ent) (dt : ℚ) :
    (enemyUpdate cfg e dt).removeOnHit = e.removeOnHit := by
  cases hk : e.kind <;> simp [enemyUpdate, hk]

/-- A spawned enemy is an enemy. -/
lemma spawnEnemy_isEnemy (cfg : BoardConfig) (rng : ℕ → ℚ) (n : ℕ) :
    (spawnEnemy cfg rng n).1.isEnemy = true := by
  simp [spawnEnemy, mkEnemy, Ent.isEnemy]

/-- A spawned enemy is not the blood prop. -/
lemma spawnEnemy_isBlood (cfg : BoardConfig) (rng : ℕ → ℚ) (n : ℕ) :
    (spawnEnemy cfg rng n).1.isBlood = false := by
  simp [spawnEnemy, mkEnemy, Ent.isBlood]

/-- A spawned enemy has `removeOnHit` false (`spawnEnemy` passes it
explicitly). -/
lemma spawnEnemy_removeOnHit (cfg : BoardConfig) (rng : ℕ → ℚ) (n : ℕ) :
    (spawnEnemy cfg rng n).1.removeOnHit = false := by
  simp [spawnEnemy, mkEnemy]

/-- A harmless iteration: if the entity at the processed index touches the
player only harmlessly (or not at all), the player survives unchanged and
no blood prop appears or disappears. -/
lemma processIndex_harmless (cfg : BoardConfig) (rng : ℕ → ℚ) (dt : ℚ)
    (st : UpdState) (k : ℕ)
    (h : ∀ e, st.entities[k]? = some e → HarmlessTouch st.player e) :
    (processIndex cfg rng dt st k).player = st.player ∧
    bloods (processIndex cfg rng dt st k).entities = bloods st.entities := by
  cases he : st.entities[k]? with
  | none => simp [processIndex, he]
  | some e =>
    have hidx : k < st.entities.length := by
      by_contra hcon
      rw [List.getElem?_eq_none (by omega)] at he
      exact Option.noConfusion he
    by_cases htch : playerTouches st.player e = true
    · obtain ⟨h0, hrm, hen, hw⟩ := h e he htch
      have hp1 : { st.player with score := st.player.score + e.hitScoreIncrement }
          = st.player := by
        rw [h0]
        cases st.player
        simp
      simp [processIndex, he, htch, hrm, hen, hw, hp1]
    · rw [Bool.not_eq_true] at htch
      cases hen : e.isEnemy with
      | false => simp [processIndex, he, htch, hen]
      | true =>
        have hbl := isEnemy_not_isBlood e hen
        have hbl2 : (enemyUpdate cfg e dt).isBlood = false := by
          rw [enemyUpdate_isBlood]; exact hbl
        cases hfl : (enemyUpdate cfg e dt).respawnOnNextUpdate with
        | false =>
          simp only [processIndex, he, htch, hen, hfl, Bool.false_and,
            if_false, Bool.and_false, Bool.and_true, ite_false, ite_true,
            Bool.false_eq_true, Bool.true_eq_false, reduceIte]
          exact ⟨trivial, filter_set_of_not _ _ _ _ _ he hbl hbl2⟩
        | true =>
          simp only [processIndex, he, htch, hen, hfl, Bool.false_and,
            if_false, Bool.and_false, Bool.and_true, ite_false, ite_true,
            Bool.false_eq_true, Bool.true_eq_false, reduceIte]
          refine ⟨trivial, ?_⟩
          have hset : (st.entities.set k (enemyUpdate cfg e dt))[k]? =
              some (enemyUpdate cfg e dt) := by
            rw [List.getElem?_set_self (by simpa using hidx)]
          rw [bloods, bloods, List.filter_append,
            filter_eraseIdx_of_not _ _ _ _ hset hbl2,
            filter_set_of_not _ _ _ _ _ he hbl hbl2]
          simp [spawnEnemy_isBlood]

/-- Harmless tail of the update loop: while every remaining entity is a
harmless touch for the current player, the loop preserves the player and
the blood props. -/
lemma updateLoop_harmless (cfg : BoardConfig) (rng : ℕ → ℚ) (dt : ℚ) :
    ∀ (k : ℕ) (st : UpdState),
      (∀ j, j < k → ∀ e, st.entities[j]? = some e → HarmlessTouch st.player e) →
      (updateLoop cfg rng dt st k).player = st.player ∧
      bloods (updateLoop cfg rng dt st k).entities = bloods st.entities := by
  intro k
  induction k with
  | zero => exact fun st _ => ⟨rfl, rfl⟩
  | succ k ih =>
    intro st h
    have hstep := processIndex_harmless cfg rng dt st k
      (fun e he => h k (by omega) e he)
    have htrans : ∀ j, j < k → ∀ e,
        (processIndex cfg rng dt st k).entities[j]? = some e →
        HarmlessTouch (processIndex cfg rng dt st k).player e := by
      intro j hjk e hje
      rw [processIndex_getElem_lt cfg rng dt st k j hjk] at hje
      rw [hstep.1]
      exact h j (by omega) e hje
    have hrec := ih (processIndex cfg rng dt st k) htrans
    have hun : updateLoop cfg rng dt st (k + 1) =
        updateLoop cfg rng dt (processIndex cfg rng dt st k) k := rfl
    rw [hun, hrec.1, hrec.2, hstep.1, hstep.2]
    exact ⟨rfl, rfl⟩

/-- A touch that is harmless for a player stays harmless after a
score-only change of the player: the touch test does not read the score. -/
lemma HarmlessTouch_score (p : PlayerState) (s : ℚ) (e : Ent)
    (h : HarmlessTouch p e) : HarmlessTouch { p with score := s } e :=
  fun htc => h htc

/-- An iteration whose entity is a harmless touch (or untouched) and not an
enemy leaves the state untouched: nothing is spliced, pushed or mutated,
and the score gains the entity's zero increment. -/
lemma processIndex_id_of_harmless_nonenemy (cfg : BoardConfig)
    (rng : ℕ → ℚ) (dt : ℚ) (es : List Ent) (p : PlayerState) (r0 : ℕ)
    (k : ℕ) (e : Ent) (he : es[k]? = some e) (hh : HarmlessTouch p e)
    (hen : e.isEnemy = false) :
    processIndex cfg rng dt { entities := es, player := p, rngK := r0 } k =
      { entities := es, player := p, rngK := r0 } := by
  by_cases htch : playerTouches p e = true
  · obtain ⟨h0, hrm, _, hw⟩ := hh htch
    have hp1 : { p with score := p.score + e.hitScoreIncrement } = p := by
      rw [h0]
      cases p
      simp
    simp [processIndex, he, htch, hrm, hen, hw, hp1]
  · rw [Bool.not_eq_true] at htch
    simp [processIndex, he, htch, hen]

/-- An enemy is never a water cell. -/
lemma isEnemy_not_isWaterCell (e : Ent) (h : e.isEnemy = true) :
    e.isWaterCell = false := by
  cases hk : e.kind <;> simp [Ent.isWaterCell, Ent.isEnemy, hk] at h ⊢

/-- The blood prop is the blood prop. -/
lemma bloodEnt_isBlood (cfg : BoardConfig) (d : ℚ) (p : Point) :
    (bloodEnt cfg d p).isBlood = true := rfl

/-- The enemy-collision iteration: when the player touches the enemy at
the processed index (and the enemy, like every spawned one, does not have
`removeOnHit`), the iteration leaves a fresh player at the start cell
carrying the incremented score, and appends exactly one blood prop at the
old player's position. -/
lemma processIndex_enemy_hit (cfg : BoardConfig) (rng : ℕ → ℚ) (dt : ℚ)
    (st : UpdState) (i : ℕ) (e : Ent)
    (he : st.entities[i]? = some e)
    (hen : e.isEnemy = true) (hrm : e.removeOnHit = false)
    (htch : playerTouches st.player e = true) :
    (processIndex cfg rng dt st i).player =
      { mkPlayer cfg with score := st.player.score + e.hitScoreIncrement } ∧
    bloods (processIndex cfg rng dt st i).entities =
      bloods st.entities ++ [bloodEnt cfg e.moveInc.x st.player.position] := by
  have hidx : i < st.entities.length := by
    by_contra hcon
    rw [List.getElem?_eq_none (by omega)] at he
    exact Option.noConfusion he
  have hw : e.isWaterCell = false := isEnemy_not_isWaterCell e hen
  have hble : e.isBlood = false := isEnemy_not_isBlood e hen
  have hble2 : (enemyUpdate cfg e dt).isBlood = false := by
    rw [enemyUpdate_isBlood]; exact hble
  have happ : (st.entities ++ [bloodEnt cfg e.moveInc.x st.player.position])[i]?
      = some e := by
    rw [List.getElem?_append_left hidx]; exact he
  cases hfl : (enemyUpdate cfg e dt).respawnOnNextUpdate with
  | false =>
    simp only [processIndex, he, htch, hen, hrm, hw, hfl, Bool.true_and,
      Bool.and_false, Bool.and_true, Bool.false_eq_true, Bool.true_eq_false,
      reduceIte, ite_true, ite_false, respawnedPlayer]
    refine ⟨trivial, ?_⟩
    rw [bloods, bloods, filter_set_of_not _ _ _ _ _ happ hble hble2,
      List.filter_append]
    simp [bloodEnt_isBlood]
  | true =>
    simp only [processIndex, he, htch, hen, hrm, hw, hfl, Bool.true_and,
      Bool.and_false, Bool.and_true, Bool.false_eq_true, Bool.true_eq_false,
      reduceIte, ite_true, ite_false, respawnedPlayer]
    refine ⟨trivial, ?_⟩
    have hset : ((st.entities ++ [bloodEnt cfg e.moveInc.x st.player.position]).set
        i (enemyUpdate cfg e dt))[i]? = some (enemyUpdate cfg e dt) := by
      rw [List.getElem?_set_self (by simp; omega)]
    rw [bloods, bloods, List.filter_append,
      filter_eraseIdx_of_not _ _ _ _ hset hble2,
      filter_set_of_not _ _ _ _ _ happ hble hble2, List.filter_append]
    simp [bloodEnt_isBlood, spawnEnemy_isBlood]

/-- The kill pass of the update loop: if the (current) player touches an
enemy at index `i`, every other entity below the counter is at most a
harmless touch for it (grid cells are), and the respawned player's touches
below `i` are all harmless too, then after the loop the player is the
fresh start-cell player with the incremented score and exactly one blood
prop has been appended at the old player's position. -/
lemma updateLoop_kill (cfg : BoardConfig) (rng : ℕ → ℚ) (dt : ℚ)
    (p0 : PlayerState) (e : Ent) (i : ℕ)
    (hen : e.isEnemy = true) (hrm : e.removeOnHit = false) :
    ∀ (k : ℕ) (st : UpdState), i < k →
      st.player = p0 →
      st.entities[i]? = some e →
      playerTouches p0 e = true →
      (∀ j e2, j ≠ i → j < k → st.entities[j]? = some e2 →
        HarmlessTouch p0 e2) →
      (∀ j e2, j < i → st.entities[j]? = some e2 →
        HarmlessTouch { mkPlayer cfg with
          score := p0.score + e.hitScoreIncrement } e2) →
      (updateLoop cfg rng dt st k).player =
        { mkPlayer cfg with score := p0.score + e.hitScoreIncrement } ∧
      bloods (updateLoop cfg rng dt st k).entities =
        bloods st.entities ++ [bloodEnt cfg e.moveInc.x p0.position] := by
  intro k
  induction k with
  | zero => intro st h0; omega
  | succ k ih =>
    intro st hik hp he htch honly hfresh
    have hun : updateLoop cfg rng dt st (k + 1) =
        updateLoop cfg rng dt (processIndex cfg rng dt st k) k := rfl
    by_cases hki : k = i
    · subst hki
      have hkill := processIndex_enemy_hit cfg rng dt st k e he hen hrm
        (by rw [hp]; exact htch)
      have hharm := updateLoop_harmless cfg rng dt k
        (processIndex cfg rng dt st k) ?_
      · rw [hun, hharm.1, hharm.2, hkill.1, hkill.2, hp]
        exact ⟨rfl, rfl⟩
      · intro j hjk e2 hje
        rw [processIndex_getElem_lt cfg rng dt st k j hjk] at hje
        rw [hkill.1, hp]
        exact hfresh j e2 hjk hje
    · have hik2 : i < k := by omega
      have hstep := processIndex_harmless cfg rng dt st k ?_
      · rw [hun]
        have hres := ih (processIndex cfg rng dt st k) hik2
          (by rw [hstep.1]; exact hp)
          (by rw [processIndex_getElem_lt cfg rng dt st k i hik2]; exact he)
          htch
          (fun j e2 hji hjk hje => honly j e2 hji (by omega)
            (by rw [← processIndex_getElem_lt cfg rng dt st k j hjk]; exact hje))
          (fun j e2 hji hje => hfresh j e2 hji
            (by rw [← processIndex_getElem_lt cfg rng dt st k j (by omega)]; exact hje))
        rw [hres.1, hres.2, hstep.2]
        exact ⟨rfl, rfl⟩
      · intro e2 he2
        rw [hp]
        exact honly k e2 hki (by omega) he2

/-- C1: during `Board.update(dt)`, if the player's occupied area touches
an enemy entity (at index i; spawned enemies always have `removeOnHit`
false), every other entity the player touches in the pass being harmless —
no score increment, no removal, not an enemy, not a water cell, which is
what the road and grass grid cells under the player are — and the
respawned player's own touches below i being harmless likewise, then
afterwards the board's player is a fresh `Player` at the board's start
cell — the `mkPlayer cfg` record: bottom row, `playerStartPosition`
column, score field aside — whose score is the pre-collision score plus
the enemy's `hitScoreIncrement`, and exactly one blood prop has been
appended, placed at the old player's position.  (The row/column/road
hypotheses keep the embedding on the domain where the source's unchecked
grid accesses cannot throw.) -/
theorem board_update_enemy_hit (cfg : BoardConfig) (rng : ℕ → ℚ) (dt : ℚ)
    (st : UpdState) (i : ℕ) (e : Ent)
    (hRows : 1 ≤ cfg.numberOfRows) (hCols : 1 ≤ cfg.numberOfColumns)
    (hRoad : CellType.road ∈ cfg.rowTypes)
    (hE : st.entities[i]? = some e)
    (hEn : e.isEnemy = true) (hRem : e.removeOnHit = false)
    (hTouch : playerTouches st.player e = true)
    (hOnly : ∀ j e2, j ≠ i → st.entities[j]? = some e2 →
      HarmlessTouch st.player e2)
    (hFresh : ∀ j e2, j < i → st.entities[j]? = some e2 →
      HarmlessTouch { mkPlayer cfg with
        score := st.player.score + e.hitScoreIncrement } e2) :
    (boardUpdate cfg rng dt st).player =
      { mkPlayer cfg with score := st.player.score + e.hitScoreIncrement } ∧
    bloods (boardUpdate cfg rng dt st).entities =
      bloods st.entities ++ [bloodEnt cfg e.moveInc.x st.player.position] := by
  have hidx : i < st.entities.length := by
    by_contra hcon
    rw [List.getElem?_eq_none (by omega)] at hE
    exact Option.noConfusion hE
  exact updateLoop_kill cfg rng dt st.player e i hEn hRem st.entities.length st
    hidx rfl hE hTouch (fun j e2 hji _ hje => hOnly j e2 hji hje) hFresh

/-- A one-cell board configuration used as concrete input for the
update-pass witnesses. -/
def killCfg : BoardConfig :=
  { numberOfColumns := 1
    rowTypes := [.road]
    numberOfEnemies := 1
    numberOfDiamonds := 0
    enemyIncrementMin := 20
    enemyIncrementMax := 20
    cellTemplateSprite := "images/road.png"
    cellTemplateDims := ⟨101, 171⟩
    cellTemplateOccupied := ⟨⟨0, 52⟩, ⟨101, 83⟩⟩ }

/-- A concrete enemy overlapping the start-cell player of `killCfg`. -/
def killEnemy : Ent := mkEnemy killCfg ⟨1, 0⟩

/-- The grid cell of the one-cell board, exactly as `BoardGrid`
construction stores it. -/
def killCell : Ent := mkCell killCfg CellType.road (rowZIndex 0) 0 0

/-- The one-cell board's road cell is a harmless touch for every player:
road cells carry no score increment, are not removed on hit, and are
neither enemies nor water cells. -/
lemma killCell_harmless (p : PlayerState) : HarmlessTouch p killCell :=
  fun _ => ⟨rfl, rfl, rfl, rfl⟩

/-- The concrete pre-update board state for the C1 witness: the board's
grid cell (which the player stands on and touches) followed by the enemy
that has moved over the player. -/
def killSt : UpdState :=
  { entities := [killCell, killEnemy], player := mkPlayer killCfg, rngK := 0 }

/-- Witness for the C1 theorem: on the one-cell board, whose grid cell is
in the entity array and is a harmless touch for the player standing on it,
the enemy overlaps the player, and the update pass respawns the player
with score -2 and appends one blood prop at the old player's position. -/
theorem board_update_enemy_hit_witness :
    (boardUpdate killCfg halfRng 1 killSt).player =
      { mkPlayer killCfg with
        score := killSt.player.score + killEnemy.hitScoreIncrement } ∧
    bloods (boardUpdate killCfg halfRng 1 killSt).entities =
      bloods killSt.entities ++
        [bloodEnt killCfg killEnemy.moveInc.x killSt.player.position] := by
  refine board_update_enemy_hit killCfg halfRng 1 killSt 1 killEnemy
    (by decide) (by decide) (by decide) rfl rfl rfl ?_ ?_ ?_
  · norm_num [playerTouches, PlayerState.occupiedArea, mkPlayer, killSt,
      moveToCellPos, playerStartRow, playerStartCol, jsCeil, jsFloor, killCfg,
      BoardConfig.numberOfRows, cellOccupiedArea, cellVisualOccupied,
      calculateCellPosition, Area.centerOnArea, Area.centerOnPoint,
      Area.center, Area.offset, Point.offset, playerVisualOccupied,
      Ent.occupiedArea, killEnemy, mkEnemy, Area.intersectsArea, Area.corners,
      Area.containsPoint, Area.topLeft, Area.topRight, Area.bottomLeft,
      Area.bottomRight, List.any_cons, List.any_nil]
  · intro j e2 hji hje
    have hl : (killSt.entities).length = 2 := rfl
    have hj2 : j < 2 := by
      by_contra hcon
      rw [List.getElem?_eq_none (by omega)] at hje
      exact Option.noConfusion hje
    have hj0 : j = 0 := by omega
    subst hj0
    have h0 : killSt.entities[0]? = some killCell := rfl
    rw [h0] at hje
    have he2 : e2 = killCell := (Option.some.inj hje).symm
    subst he2
    exact killCell_harmless _
  · intro j e2 hji hje
    have hj0 : j = 0 := by omega
    subst hj0
    have h0 : killSt.entities[0]? = some killCell := rfl
    rw [h0] at hje
    have he2 : e2 = killCell := (Option.some.inj hje).symm
    subst he2
    exact killCell_harmless _

/-- The effect of one update pass on an entity that the player does not
touch: enemies advance by `Enemy.update(dt)`, everything else is unchanged. -/
def updE (cfg : BoardConfig) (dt : ℚ) (e : Ent) : Ent :=
  if e.isEnemy then enemyUpdate cfg e dt else e

/-- A diamond is not an enemy. -/
lemma isDiamond_not_isEnemy (e : Ent) (h : e.isDiamond = true) :
    e.isEnemy = false := by
  cases hk : e.kind <;> simp [Ent.isDiamond, Ent.isEnemy, hk] at h ⊢

/-- A diamond is not a water cell. -/
lemma isDiamond_not_isWaterCell (e : Ent) (h : e.isDiamond = true) :
    e.isWaterCell = false := by
  cases hk : e.kind <;> simp [Ent.isDiamond, Ent.isWaterCell, hk] at h ⊢

/-- The score-only player update does not affect touch tests. -/
lemma playerTouches_score (p : PlayerState) (s : ℚ) (e : Ent) :
    playerTouches { p with score := s } e = playerTouches p e := rfl

/-- `take (k+1)` splits off the element at `k`. -/
lemma take_succ_getElem {α : Type} (es : List α) (k : ℕ) (hk : k < es.length) :
    es.take (k + 1) = es.take k ++ [es.get ⟨k, hk⟩] := by
  rw [List.take_succ]
  simp [List.getElem?_eq_getElem hk]

/-- Variant of `set_append_cons` with a named boundary index. -/
lemma set_append_cons' {α : Type} (l1 : List α) (a : α) (l2 : List α)
    (x : α) (n : ℕ) (hn : l1.length = n) :
    (l1 ++ a :: l2).set n x = l1 ++ x :: l2 := by
  subst hn
  exact set_append_cons l1 a l2 x

/-- Variant of `getElem?_append_cons` with a named boundary index. -/
lemma getElem?_append_cons' {α : Type} (l1 : List α) (a : α) (l2 : List α)
    (n : ℕ) (hn : l1.length = n) : (l1 ++ a :: l2)[n]? = some a := by
  subst hn
  exact getElem?_append_cons l1 a l2

/-- Variant of `eraseIdx_append_cons` with a named boundary index. -/
lemma eraseIdx_append_cons' {α : Type} (l1 : List α) (a : α) (l2 : List α)
    (n : ℕ) (hn : l1.length = n) : (l1 ++ a :: l2).eraseIdx n = l1 ++ l2 := by
  subst hn
  exact eraseIdx_append_cons l1 a l2

/-- Length of `take k` for `k` within bounds. -/
lemma length_take_of_le {α : Type} (es : List α) (k : ℕ)
    (hk : k ≤ es.length) : (es.take k).length = k := by
  simp [List.length_take]
  omega

/-- Setting index `k` in a list that starts with `take (k+1)`. -/
lemma set_take_succ_append {α : Type} (es : List α) (k : ℕ)
    (hk : k < es.length) (L : List α) (x : α) :
    (es.take (k + 1) ++ L).set k x = es.take k ++ (x :: L) := by
  rw [take_succ_getElem es k hk, List.append_assoc, List.singleton_append,
    set_append_cons' _ _ _ _ _ (length_take_of_le es k (by omega))]

/-- Reading index `k` from a list that starts with `take (k+1)`. -/
lemma getElem?_take_succ_append {α : Type} (es : List α) (k : ℕ)
    (hk : k < es.length) (L : List α) :
    (es.take (k + 1) ++ L)[k]? = some (es.get ⟨k, hk⟩) := by
  rw [take_succ_getElem es k hk, List.append_assoc, List.singleton_append,
    getElem?_append_cons' _ _ _ _ (length_take_of_le es k (by omega))]

/-- Erasing index `k` from a list that starts with `take (k+1)`. -/
lemma eraseIdx_take_succ_append {α : Type} (es : List α) (k : ℕ)
    (hk : k < es.length) (L : List α) :
    (es.take (k + 1) ++ L).eraseIdx k = es.take k ++ L := by
  rw [take_succ_getElem es k hk, List.append_assoc, List.singleton_append,
    eraseIdx_append_cons' _ _ _ _ (length_take_of_le es k (by omega))]

/-- Mapped drop splits off the element at `k`. -/
lemma map_drop_getElem {α : Type} (f : α → α) (es : List α) (k : ℕ)
    (hk : k < es.length) :
    (es.drop k).map f = f (es.get ⟨k, hk⟩) :: (es.drop (k + 1)).map f := by
  rw [List.drop_eq_getElem_cons hk]
  rfl

/-- Unfolding of the processed-suffix invariant at the element `k`. -/
lemma stateB_unfold (cfg : BoardConfig) (dt : ℚ) (es : List Ent) (i k : ℕ)
    (hk : k < es.length) :
    es.take k ++ (((es.drop k).take (i - k)).map (updE cfg dt)
      ++ (es.drop (i + 1)).map (updE cfg dt)) =
    es.take k ++ (updE cfg dt (es.get ⟨k, hk⟩) ::
      (((es.drop (k + 1)).take (i - (k + 1))).map (updE cfg dt)
        ++ (es.drop (i + 1)).map (updE cfg dt))) ∨
    i ≤ k := by
  by_cases hki : k < i
  · left
    have : i - k = (i - (k + 1)) + 1 := by omega
    rw [this, List.drop_eq_getElem_cons hk, List.take_succ_cons,
      List.map_cons, List.cons_append]
    rfl
  · right
    omega

/-- The below-the-collision tail of the update loop for C2: while every
remaining entity is at most a harmless touch for the player (grid cells
are) and no enemy leaves the board, the loop turns the unprocessed prefix
into its enemy-advanced image and changes nothing else. -/
lemma updateLoop_collect_below (cfg : BoardConfig) (rng : ℕ → ℚ) (dt : ℚ)
    (p1 : PlayerState) (i : ℕ) (es : List Ent) (hi : i ≤ es.length)
    (hOnly : ∀ j e2, j < i → es[j]? = some e2 → HarmlessTouch p1 e2)
    (hNoResp : ∀ e2 ∈ es, e2.isEnemy = true →
      (enemyUpdate cfg e2 dt).respawnOnNextUpdate = false) :
    ∀ (k : ℕ), k ≤ i → ∀ (r0 : ℕ),
      updateLoop cfg rng dt
        { entities := es.take k ++ (((es.drop k).take (i - k)).map (updE cfg dt)
            ++ (es.drop (i + 1)).map (updE cfg dt)),
          player := p1, rngK := r0 } k =
      { entities := (es.take i).map (updE cfg dt)
          ++ (es.drop (i + 1)).map (updE cfg dt),
        player := p1, rngK := r0 } := by
  intro k
  induction k with
  | zero =>
    intro _ r0
    simp [updateLoop, List.map_take]
  | succ k ih =>
    intro hki r0
    have hk : k < es.length := by omega
    have hunf := (stateB_unfold cfg dt es i k hk).resolve_right (by omega)
    have he : (es.take (k + 1) ++ (((es.drop (k + 1)).take (i - (k + 1))).map
        (updE cfg dt) ++ (es.drop (i + 1)).map (updE cfg dt)))[k]? =
        some (es.get ⟨k, hk⟩) := getElem?_take_succ_append es k hk _
    have hharm : HarmlessTouch p1 (es.get ⟨k, hk⟩) := by
      refine hOnly k _ (by omega) ?_
      rw [List.getElem?_eq_getElem hk]
      simp
    have hun : updateLoop cfg rng dt
        { entities := es.take (k + 1) ++ (((es.drop (k + 1)).take (i - (k + 1))).map
            (updE cfg dt) ++ (es.drop (i + 1)).map (updE cfg dt)),
          player := p1, rngK := r0 } (k + 1) =
        updateLoop cfg rng dt (processIndex cfg rng dt
          { entities := es.take (k + 1) ++ (((es.drop (k + 1)).take (i - (k + 1))).map
              (updE cfg dt) ++ (es.drop (i + 1)).map (updE cfg dt)),
            player := p1, rngK := r0 } k) k := rfl
    cases hen : (es.get ⟨k, hk⟩).isEnemy with
    | false =>
      have hupd : updE cfg dt (es.get ⟨k, hk⟩) = es.get ⟨k, hk⟩ := by
        simp only [updE, hen, Bool.false_eq_true, reduceIte]
      have hproc : processIndex cfg rng dt
          { entities := es.take (k + 1) ++ (((es.drop (k + 1)).take (i - (k + 1))).map
              (updE cfg dt) ++ (es.drop (i + 1)).map (updE cfg dt)),
            player := p1, rngK := r0 } k =
          { entities := es.take k ++ (((es.drop k).take (i - k)).map (updE cfg dt)
              ++ (es.drop (i + 1)).map (updE cfg dt)),
            player := p1, rngK := r0 } := by
        rw [processIndex_id_of_harmless_nonenemy cfg rng dt _ p1 r0 k _ he
          hharm hen, hunf, hupd, take_succ_getElem es k hk, List.append_assoc,
          List.singleton_append]
      rw [hun, hproc]
      exact ih (by omega) r0
    | true =>
      have htch : playerTouches p1 (es.get ⟨k, hk⟩) = false := by
        by_cases h2 : playerTouches p1 (es.get ⟨k, hk⟩) = true
        · obtain ⟨_, _, hne, _⟩ := hharm h2
          rw [hne] at hen
          exact Bool.noConfusion hen
        · rw [Bool.not_eq_true] at h2
          exact h2
      have hflag : (enemyUpdate cfg (es.get ⟨k, hk⟩) dt).respawnOnNextUpdate
          = false := hNoResp _ (by simp) hen
      have hupd : updE cfg dt (es.get ⟨k, hk⟩) = enemyUpdate cfg (es.get ⟨k, hk⟩) dt := by
        simp only [updE, hen, reduceIte]
      have hproc : processIndex cfg rng dt
          { entities := es.take (k + 1) ++ (((es.drop (k + 1)).take (i - (k + 1))).map
              (updE cfg dt) ++ (es.drop (i + 1)).map (updE cfg dt)),
            player := p1, rngK := r0 } k =
          { entities := es.take k ++ (((es.drop k).take (i - k)).map (updE cfg dt)
              ++ (es.drop (i + 1)).map (updE cfg dt)),
            player := p1, rngK := r0 } := by
        simp only [processIndex, he, htch, hen, hflag, Bool.false_and,
          Bool.and_false, Bool.and_true, Bool.false_eq_true, reduceIte,
          ite_false, ite_true, if_false]
        rw [hunf, hupd, set_take_succ_append es k hk]
      rw [hun, hproc]
      exact ih (by omega) r0

/-- Unfolding of the all-unprocessed-suffix invariant at the element `k`. -/
lemma stateA_unfold (cfg : BoardConfig) (dt : ℚ) (es : List Ent) (k : ℕ)
    (hk : k < es.length) :
    es.take k ++ (es.drop k).map (updE cfg dt) =
    es.take k ++ (updE cfg dt (es.get ⟨k, hk⟩) ::
      (es.drop (k + 1)).map (updE cfg dt)) := by
  congr 1
  rw [List.drop_eq_getElem_cons hk, List.map_cons]
  simp

/-- The above-the-collision head of the update loop for C2: processing
down to the diamond's index advances the enemies above it; the diamond
collision then adds its score increment and splices it out. -/
lemma updateLoop_collect_above (cfg : BoardConfig) (rng : ℕ → ℚ) (dt : ℚ)
    (p0 : PlayerState) (i : ℕ) (es : List Ent) (d : Ent)
    (hi : i < es.length) (hd : es[i]? = some d)
    (hdia : d.isDiamond = true) (hrem : d.removeOnHit = true)
    (htch : playerTouches p0 d = true)
    (hOnly : ∀ j e2, j ≠ i → es[j]? = some e2 → HarmlessTouch p0 e2)
    (hNoResp : ∀ e2 ∈ es, e2.isEnemy = true →
      (enemyUpdate cfg e2 dt).respawnOnNextUpdate = false) :
    ∀ (k : ℕ), i < k → k ≤ es.length → ∀ (r0 : ℕ),
      updateLoop cfg rng dt
        { entities := es.take k ++ (es.drop k).map (updE cfg dt),
          player := p0, rngK := r0 } k =
      { entities := (es.take i).map (updE cfg dt)
          ++ (es.drop (i + 1)).map (updE cfg dt),
        player := { p0 with score := p0.score + d.hitScoreIncrement },
        rngK := r0 } := by
  intro k
  induction k with
  | zero => intro h0; omega
  | succ k ih =>
    intro hik hkl r0
    have hk : k < es.length := by omega
    have he : (es.take (k + 1) ++ (es.drop (k + 1)).map (updE cfg dt))[k]? =
        some (es.get ⟨k, hk⟩) := getElem?_take_succ_append es k hk _
    have hun : updateLoop cfg rng dt
        { entities := es.take (k + 1) ++ (es.drop (k + 1)).map (updE cfg dt),
          player := p0, rngK := r0 } (k + 1) =
        updateLoop cfg rng dt (processIndex cfg rng dt
          { entities := es.take (k + 1) ++ (es.drop (k + 1)).map (updE cfg dt),
            player := p0, rngK := r0 } k) k := rfl
    by_cases hki : k = i
    · subst hki
      have hde : es.get ⟨k, hk⟩ = d := by
        rw [List.getElem?_eq_getElem hk] at hd
        simpa using hd
      have hen : d.isEnemy = false := isDiamond_not_isEnemy d hdia
      have hw : d.isWaterCell = false := isDiamond_not_isWaterCell d hdia
      have hproc : processIndex cfg rng dt
          { entities := es.take (k + 1) ++ (es.drop (k + 1)).map (updE cfg dt),
            player := p0, rngK := r0 } k =
          { entities := es.take k ++ (es.drop (k + 1)).map (updE cfg dt),
            player := { p0 with score := p0.score + d.hitScoreIncrement },
            rngK := r0 } := by
        have he2 : (es.take (k + 1) ++ (es.drop (k + 1)).map (updE cfg dt))[k]?
            = some d := by rw [he, hde]
        simp only [processIndex, he2, hde, htch, hrem, hen, hw, Bool.true_and,
          Bool.and_true, Bool.and_false, Bool.false_eq_true, reduceIte,
          ite_true, ite_false]
        rw [eraseIdx_take_succ_append es k hk]
      rw [hun, hproc]
      have hbelow := updateLoop_collect_below cfg rng dt
        { p0 with score := p0.score + d.hitScoreIncrement } k es (by omega)
        (fun j e2 hji hje =>
          HarmlessTouch_score p0 _ e2 (hOnly j e2 (by omega) hje))
        hNoResp k (le_refl k) r0
      rw [show ((es.drop k).take (k - k)).map (updE cfg dt) = [] from by
        simp [Nat.sub_self]] at hbelow
      simpa using hbelow
    · have hharm : HarmlessTouch p0 (es.get ⟨k, hk⟩) := by
        refine hOnly k _ hki ?_
        rw [List.getElem?_eq_getElem hk]
        simp
      cases hen : (es.get ⟨k, hk⟩).isEnemy with
      | false =>
        have hupd : updE cfg dt (es.get ⟨k, hk⟩) = es.get ⟨k, hk⟩ := by
          simp only [updE, hen, Bool.false_eq_true, reduceIte]
        have hproc : processIndex cfg rng dt
            { entities := es.take (k + 1) ++ (es.drop (k + 1)).map (updE cfg dt),
              player := p0, rngK := r0 } k =
            { entities := es.take k ++ (es.drop k).map (updE cfg dt),
              player := p0, rngK := r0 } := by
          rw [processIndex_id_of_harmless_nonenemy cfg rng dt _ p0 r0 k _ he
            hharm hen, stateA_unfold cfg dt es k hk, hupd,
            take_succ_getElem es k hk, List.append_assoc,
            List.singleton_append]
        rw [hun, hproc]
        exact ih (by omega) (by omega) r0
      | true =>
        have htch2 : playerTouches p0 (es.get ⟨k, hk⟩) = false := by
          by_cases h2 : playerTouches p0 (es.get ⟨k, hk⟩) = true
          · obtain ⟨_, _, hne, _⟩ := hharm h2
            rw [hne] at hen
            exact Bool.noConfusion hen
          · rw [Bool.not_eq_true] at h2
            exact h2
        have hflag : (enemyUpdate cfg (es.get ⟨k, hk⟩) dt).respawnOnNextUpdate
            = false := hNoResp _ (by simp) hen
        have hupd : updE cfg dt (es.get ⟨k, hk⟩) =
            enemyUpdate cfg (es.get ⟨k, hk⟩) dt := by
          simp only [updE, hen, reduceIte]
        have hproc : processIndex cfg rng dt
            { entities := es.take (k + 1) ++ (es.drop (k + 1)).map (updE cfg dt),
              player := p0, rngK := r0 } k =
            { entities := es.take k ++ (es.drop k).map (updE cfg dt),
              player := p0, rngK := r0 } := by
          simp only [processIndex, he, htch2, hen, hflag, Bool.false_and,
            Bool.and_false, Bool.and_true, Bool.false_eq_true, reduceIte,
            ite_false, ite_true, if_false]
          rw [stateA_unfold cfg dt es k hk, hupd, set_take_succ_append es k hk]
        rw [hun, hproc]
        exact ih (by omega) (by omega) r0

/-- Erasing index `i` from a mapped list splits into mapped take and drop. -/
lemma map_eraseIdx_split (f : Ent → Ent) (es : List Ent) (i : ℕ) :
    (es.map f).eraseIdx i = (es.take i).map f ++ (es.drop (i + 1)).map f := by
  rw [List.eraseIdx_eq_take_drop_succ]
  simp [List.map_take, List.map_drop]

/-- C2: during `Board.update(dt)`, if the player's occupied area touches a
diamond (at index i; the `Diamond` constructor pins `removeOnHit`), every
other entity the player touches in the pass is harmless — no score
increment, no removal, not an enemy, not a water cell, which is what the
road cell under the player is — and no enemy leaves the board during the
pass, then the player's score increases by exactly the diamond's
`hitScoreIncrement` (the player otherwise unchanged), the diamond is
removed from the entity collection, and no other entity is removed by
that collision — the final collection is exactly the original one with
each enemy advanced by its own `update(dt)` and the diamond's slot
erased. -/
theorem board_update_diamond_hit (cfg : BoardConfig) (rng : ℕ → ℚ) (dt : ℚ)
    (st : UpdState) (i : ℕ) (d : Ent)
    (hE : st.entities[i]? = some d)
    (hDia : d.isDiamond = true) (hRem : d.removeOnHit = true)
    (hTouch : playerTouches st.player d = true)
    (hOnly : ∀ j e2, j ≠ i → st.entities[j]? = some e2 →
      HarmlessTouch st.player e2)
    (hNoResp : ∀ e2 ∈ st.entities, e2.isEnemy = true →
      (enemyUpdate cfg e2 dt).respawnOnNextUpdate = false) :
    boardUpdate cfg rng dt st =
      { entities := (st.entities.map (updE cfg dt)).eraseIdx i,
        player := { st.player with
          score := st.player.score + d.hitScoreIncrement },
        rngK := st.rngK } := by
  have hi : i < st.entities.length := by
    by_contra hcon
    rw [List.getElem?_eq_none (by omega)] at hE
    exact Option.noConfusion hE
  have hmain := updateLoop_collect_above cfg rng dt st.player i st.entities d
    hi hE hDia hRem hTouch hOnly hNoResp st.entities.length hi (le_refl _)
    st.rngK
  have hself : st.entities.take st.entities.length ++
      (st.entities.drop st.entities.length).map (updE cfg dt) =
      st.entities := by simp
  rw [hself] at hmain
  rw [map_eraseIdx_split]
  exact hmain

/-- A concrete diamond overlapping the start-cell player of `killCfg`. -/
def diamondW : Ent :=
  { sprite := "images/diamond.png"
    position := ⟨0, -75/2⟩
    visualDims := none
    visualOccupied := ⟨⟨3, 100⟩, ⟨95, 62⟩⟩
    zIndex := 101
    hitScoreIncrement := 1
    removeOnHit := true
    kind := .diamond }

/-- The concrete pre-update board state for the C2 witness: the board's
grid cell (which the player stands on and touches) followed by the
diamond the player collects. -/
def diamondSt : UpdState :=
  { entities := [killCell, diamondW], player := mkPlayer killCfg, rngK := 0 }

/-- Witness for the C2 theorem: on the one-cell board, whose grid cell is
in the entity array and is a harmless touch for the player standing on it,
the diamond overlaps the player; the update pass adds 1 to the score and
erases the diamond (and nothing else). -/
theorem board_update_diamond_hit_witness :
    boardUpdate killCfg halfRng 1 diamondSt =
      { entities := (diamondSt.entities.map (updE killCfg 1)).eraseIdx 1,
        player := { diamondSt.player with
          score := diamondSt.player.score + diamondW.hitScoreIncrement },
        rngK := diamondSt.rngK } := by
  refine board_update_diamond_hit killCfg halfRng 1 diamondSt 1 diamondW
    rfl rfl rfl ?_ ?_ ?_
  · norm_num [playerTouches, PlayerState.occupiedArea, mkPlayer, diamondSt,
      moveToCellPos, playerStartRow, playerStartCol, jsCeil, jsFloor, killCfg,
      BoardConfig.numberOfRows, cellOccupiedArea, cellVisualOccupied,
      calculateCellPosition, Area.centerOnArea, Area.centerOnPoint,
      Area.center, Area.offset, Point.offset, playerVisualOccupied,
      Ent.occupiedArea, diamondW, Area.intersectsArea, Area.corners,
      Area.containsPoint, Area.topLeft, Area.topRight, Area.bottomLeft,
      Area.bottomRight, List.any_cons, List.any_nil]
  · intro j e2 hji hje
    have hl : diamondSt.entities.length = 2 := rfl
    have hj2 : j < 2 := by
      by_contra hcon
      rw [List.getElem?_eq_none (by omega)] at hje
      exact Option.noConfusion hje
    have hj0 : j = 0 := by omega
    subst hj0
    have h0 : diamondSt.entities[0]? = some killCell := rfl
    rw [h0] at hje
    have he2 : e2 = killCell := (Option.some.inj hje).symm
    subst he2
    exact killCell_harmless _
  · intro e2 hmem hen
    simp only [diamondSt, List.mem_cons, List.not_mem_nil, or_false] at hmem
    rcases hmem with rfl | rfl
    · simp [killCell, mkCell, Ent.isEnemy] at hen
    · simp [diamondW, Ent.isEnemy] at hen

/-- Getter `BoardGridCell.row` (only read on cells). -/
def Ent.cellRow (e : Ent) : ℤ :=
  match e.kind with
  | .cell _ r _ => r
  | _ => 0

/-- Getter `BoardGridCell.column` (only read on cells). -/
def Ent.cellCol (e : Ent) : ℤ :=
  match e.kind with
  | .cell _ _ c => c
  | _ => 0

/-- The `Diamond` constructor applied by `placeDiamonds` to a road cell:
predefined visual (occupied sub-rectangle (3,100)-(95,62)), zIndex 101,
`hitScoreIncrement` 1 (the constructor's default, passed explicitly),
`removeOnHit` true, position cloned from the cell and then snapped to the
cell via `moveToCell`. -/
def diamondOnCell (cfg : BoardConfig) (cell : Ent) : Ent :=
  { sprite := "images/diamond.png"
    position := moveToCellPos cfg ⟨⟨3, 100⟩, ⟨95, 62⟩⟩ cell.position
      cell.cellRow cell.cellCol
    visualDims := none
    visualOccupied := ⟨⟨3, 100⟩, ⟨95, 62⟩⟩
    zIndex := 101
    hitScoreIncrement := 1
    removeOnHit := true
    kind := .diamond }

/-- The `while` loop of `Board.placeDiamonds`, with explicit fuel for the
unbounded random retry (fuel exhaustion models divergence as an error).
Each pass draws `randBetween(0, roadCells.length)` — note the inclusive
upper bound equal to the array length, so a draw of `length` hits the
`undefined` slot and throws when dereferenced. -/
def placeDiamondsLoop (cfg : BoardConfig) (rng : ℕ → ℚ) (roadCells : List Ent) :
    ℕ → List ℤ → List Ent → ℕ → Except JSErr (List Ent × ℕ)
  | 0, _, _, _ => .error .diverge
  | fuel + 1, indices, ents, k =>
    if indices.length < cfg.numberOfDiamonds then
      let index := randBetween rng k 0 (roadCells.length)
      if indices.contains index then
        placeDiamondsLoop cfg rng roadCells fuel indices ents (k + 1)
      else
        match jsIndex roadCells index with
        | none => .error .typeErr
        | some cell =>
          placeDiamondsLoop cfg rng roadCells fuel (indices ++ [index])
            (ents ++ [diamondOnCell cfg cell]) (k + 1)
    else .ok (ents, k)

/-- Method `Board.placeDiamonds()`: the dead deletion pass (whose body
dereferences an undefined binding and so throws on the first `Diamond`
found — no diamond exists at the only call site), the road-cell capacity
check, and the random placement loop, which appends the new diamonds to
the entity collection. -/
def placeDiamonds (cfg : BoardConfig) (rng : ℕ → ℚ) (fuel : ℕ)
    (ents : List Ent) (k : ℕ) : Except JSErr (List Ent × ℕ) :=
  if ents.any Ent.isDiamond then .error .typeErr
  else
    let roadCells := (gridCells cfg).filter Ent.isRoadCell
    if roadCells.length < cfg.numberOfDiamonds then
      .error (.thrown "not enough space on board to place all diamonds")
    else
      match placeDiamondsLoop cfg rng roadCells fuel [] [] k with
      | .error e => .error e
      | .ok (ds, k2) => .ok (ents ++ ds, k2)

/-- The spawn loop of `Board.respawnEnemies`: `numberOfEnemies` calls to
`spawnEnemy`, each appending one enemy. -/
def spawnN (cfg : BoardConfig) (rng : ℕ → ℚ) :
    ℕ → List Ent → ℕ → List Ent × ℕ
  | 0, ents, k => (ents, k)
  | n + 1, ents, k =>
    let s := spawnEnemy cfg rng k
    spawnN cfg rng n (ents ++ [s.1]) s.2

/-- Method `Board.respawnEnemies()`: purge every enemy from the entity
collection, then spawn the configured count. -/
def respawnEnemies (cfg : BoardConfig) (rng : ℕ → ℚ) (ents : List Ent)
    (k : ℕ) : List Ent × ℕ :=
  spawnN cfg rng cfg.numberOfEnemies (ents.filter fun e => !(e.isEnemy)) k

/-- The `Board` constructor: seed the entity collection with the grid
cells, place the diamonds, construct the player, respawn the enemies. -/
def mkBoard (cfg : BoardConfig) (rng : ℕ → ℚ) (fuel : ℕ) :
    Except JSErr UpdState :=
  let cells := gridCells cfg
  match placeDiamonds cfg rng fuel cells 0 with
  | .error e => .error e
  | .ok (ents1, k1) =>
    let player := mkPlayer cfg
    let res := respawnEnemies cfg rng ents1 k1
    .ok { entities := res.1, player := player, rngK := res.2 }

/-- Erasing an element on which the predicate holds drops the count by
one. -/
lemma countP_eraseIdx_of_pos {α : Type} (p : α → Bool) :
    ∀ (l : List α) (i : ℕ) (y : α), l[i]? = some y → p y = true →
      (l.eraseIdx i).countP p + 1 = l.countP p
  | [], i, y, h, _ => by simp at h
  | a :: l, 0, y, h, hp => by
    simp only [List.getElem?_cons_zero, Option.some.injEq] at h
    subst h
    simp [List.countP_cons, hp]
  | a :: l, i + 1, y, h, hp => by
    simp only [List.getElem?_cons_succ] at h
    simp only [List.eraseIdx_cons_succ, List.countP_cons]
    have := countP_eraseIdx_of_pos p l i y h hp
    omega

/-- An entity fetched by index is a member. -/
lemma mem_of_getElem? {α : Type} (l : List α) (i : ℕ) (y : α)
    (h : l[i]? = some y) : y ∈ l := by
  obtain ⟨hlt, rfl⟩ := List.getElem?_eq_some.mp h
  exact List.getElem_mem hlt

/-- The blood prop is not an enemy. -/
lemma bloodEnt_not_enemy (cfg : BoardConfig) (d : ℚ) (p : Point) :
    (bloodEnt cfg d p).isEnemy = false := rfl

/-- One `Board.update` iteration preserves the number of enemies and the
property that no enemy is flagged `removeOnHit`: collisions only remove
non-enemies (spawned enemies never have `removeOnHit`), and an enemy that
left the board is spliced out and replaced by exactly one spawned enemy. -/
lemma processIndex_enemy_invariant (cfg : BoardConfig) (rng : ℕ → ℚ)
    (dt : ℚ) (st : UpdState) (index : ℕ)
    (hInv : ∀ x ∈ st.entities, x.isEnemy = true → x.removeOnHit = false) :
    (processIndex cfg rng dt st index).entities.countP Ent.isEnemy =
      st.entities.countP Ent.isEnemy ∧
    ∀ x ∈ (processIndex cfg rng dt st index).entities,
      x.isEnemy = true → x.removeOnHit = false := by
  cases he : st.entities[index]? with
  | none =>
    refine ⟨by simp [processIndex, he], ?_⟩
    intro x hx
    simp only [processIndex, he] at hx
    exact hInv x hx
  | some e =>
    have hmem := mem_of_getElem? _ _ _ he
    have hidx : index < st.entities.length := by
      by_contra hcon
      rw [List.getElem?_eq_none (by omega)] at he
      exact Option.noConfusion he
    by_cases hen : e.isEnemy = true
    · have hrm : e.removeOnHit = false := hInv e hmem hen
      have hen2 : (enemyUpdate cfg e dt).isEnemy = true := by
        rw [enemyUpdate_isEnemy]; exact hen
      have hrm2 : (enemyUpdate cfg e dt).removeOnHit = false := by
        rw [enemyUpdate_removeOnHit]; exact hrm
      cases htch : playerTouches st.player e with
      | false =>
        cases hfl : (enemyUpdate cfg e dt).respawnOnNextUpdate with
        | false =>
          simp only [processIndex, he, htch, hen, hfl, hrm, Bool.false_and,
            Bool.and_false, Bool.false_eq_true, reduceIte, ite_false,
            ite_true, if_false]
          refine ⟨countP_set_of_same _ _ _ _ _ he (by rw [hen, hen2]), ?_⟩
          intro x hx
          rcases List.mem_or_eq_of_mem_set hx with hx2 | hx2
          · exact hInv x hx2
          · subst hx2
            exact fun _ => hrm2
        | true =>
          simp only [processIndex, he, htch, hen, hfl, hrm, Bool.false_and,
            Bool.and_false, Bool.false_eq_true, reduceIte, ite_false,
            ite_true, if_false]
          have hset : (st.entities.set index (enemyUpdate cfg e dt))[index]? =
              some (enemyUpdate cfg e dt) :=
            List.getElem?_set_self (by simpa using hidx)
          constructor
          · have h1 := countP_eraseIdx_of_pos Ent.isEnemy _ _ _ hset hen2
            have h2 := countP_set_of_same Ent.isEnemy _ _ _
              (enemyUpdate cfg e dt) he (by rw [hen, hen2])
            rw [List.countP_append]
            simp only [List.countP_cons, List.countP_nil,
              spawnEnemy_isEnemy, if_true]
            omega
          · intro x hx
            rcases List.mem_append.mp hx with hx2 | hx2
            · have hx3 := List.eraseIdx_subset _ _ hx2
              rcases List.mem_or_eq_of_mem_set hx3 with hx4 | hx4
              · exact hInv x hx4
              · subst hx4
                exact fun _ => hrm2
            · rw [List.mem_singleton] at hx2
              subst hx2
              exact fun _ => spawnEnemy_removeOnHit cfg rng st.rngK
      | true =>
        have happ : (st.entities ++
            [bloodEnt cfg e.moveInc.x st.player.position])[index]? = some e := by
          rw [List.getElem?_append_left hidx]; exact he
        have hcapp : (st.entities ++
            [bloodEnt cfg e.moveInc.x st.player.position]).countP Ent.isEnemy =
            st.entities.countP Ent.isEnemy := by
          simp [List.countP_append, List.countP_cons, bloodEnt_not_enemy]
        cases hfl : (enemyUpdate cfg e dt).respawnOnNextUpdate with
        | false =>
          simp only [processIndex, he, htch, hen, hfl, hrm, Bool.true_and,
            Bool.and_false, Bool.and_true, Bool.false_eq_true, reduceIte,
            ite_false, ite_true, if_false]
          constructor
          · rw [countP_set_of_same _ _ _ _ _ happ (by rw [hen, hen2]), hcapp]
          · intro x hx
            rcases List.mem_or_eq_of_mem_set hx with hx2 | hx2
            · rcases List.mem_append.mp hx2 with hx3 | hx3
              · exact hInv x hx3
              · rw [List.mem_singleton] at hx3
                subst hx3
                intro hB
                rw [bloodEnt_not_enemy] at hB
                exact Bool.noConfusion hB
            · subst hx2
              exact fun _ => hrm2
        | true =>
          simp only [processIndex, he, htch, hen, hfl, hrm, Bool.true_and,
            Bool.and_false, Bool.and_true, Bool.false_eq_true, reduceIte,
            ite_false, ite_true, if_false]
          have hset : ((st.entities ++
              [bloodEnt cfg e.moveInc.x st.player.position]).set index
              (enemyUpdate cfg e dt))[index]? =
              some (enemyUpdate cfg e dt) :=
            List.getElem?_set_self (by simp; omega)
          constructor
          · have h1 := countP_eraseIdx_of_pos Ent.isEnemy _ _ _ hset hen2
            have h2 := countP_set_of_same Ent.isEnemy _ _ _
              (enemyUpdate cfg e dt) happ (by rw [hen, hen2])
            rw [List.countP_append]
            simp only [List.countP_cons, List.countP_nil,
              spawnEnemy_isEnemy, if_true]
            omega
          · intro x hx
            rcases List.mem_append.mp hx with hx2 | hx2
            · have hx3 := List.eraseIdx_subset _ _ hx2
              rcases List.mem_or_eq_of_mem_set hx3 with hx4 | hx4
              · rcases List.mem_append.mp hx4 with hx5 | hx5
                · exact hInv x hx5
                · rw [List.mem_singleton] at hx5
                  subst hx5
                  intro hB
                  rw [bloodEnt_not_enemy] at hB
                  exact Bool.noConfusion hB
              · subst hx4
                exact fun _ => hrm2
            · rw [List.mem_singleton] at hx2
              subst hx2
              exact fun _ => spawnEnemy_removeOnHit cfg rng st.rngK
    · rw [Bool.not_eq_true] at hen
      cases htch : playerTouches st.player e with
      | false =>
        refine ⟨by simp [processIndex, he, htch, hen], ?_⟩
        intro x hx
        simp only [processIndex, he, htch, hen, Bool.false_and,
          Bool.and_false, Bool.false_eq_true, reduceIte, ite_false,
          if_false] at hx
        exact hInv x hx
      | true =>
        cases hrm : e.removeOnHit with
        | false =>
          refine ⟨by simp [processIndex, he, htch, hen, hrm], ?_⟩
          intro x hx
          simp only [processIndex, he, htch, hen, hrm, Bool.true_and,
            Bool.and_false, Bool.and_true, Bool.false_eq_true, reduceIte,
            ite_false, ite_true, if_false] at hx
          exact hInv x hx
        | true =>
          simp only [processIndex, he, htch, hen, hrm, Bool.true_and,
            Bool.and_false, Bool.and_true, Bool.false_eq_true, reduceIte,
            ite_false, ite_true, if_false]
          refine ⟨countP_eraseIdx_of_not _ _ _ _ he hen, ?_⟩
          intro x hx
          exact hInv x (List.eraseIdx_subset _ _ hx)

/-- The whole update loop preserves the enemy count and the
no-enemy-is-removable property. -/
lemma updateLoop_enemy_invariant (cfg : BoardConfig) (rng : ℕ → ℚ) (dt : ℚ) :
    ∀ (k : ℕ) (st : UpdState),
      (∀ x ∈ st.entities, x.isEnemy = true → x.removeOnHit = false) →
      (updateLoop cfg rng dt st k).entities.countP Ent.isEnemy =
        st.entities.countP Ent.isEnemy ∧
      ∀ x ∈ (updateLoop cfg rng dt st k).entities, x.isEnemy = true →
        x.removeOnHit = false := by
  intro k
  induction k with
  | zero => exact fun st h => ⟨rfl, h⟩
  | succ k ih =>
    intro st h
    have hstep := processIndex_enemy_invariant cfg rng dt st k h
    have hrec := ih (processIndex cfg rng dt st k) hstep.2
    have hun : updateLoop cfg rng dt st (k + 1) =
        updateLoop cfg rng dt (processIndex cfg rng dt st k) k := rfl
    rw [hun]
    exact ⟨by rw [hrec.1, hstep.1], hrec.2⟩

/-- Purging the enemies leaves an enemy count of zero. -/
lemma countP_filter_not_enemy (l : List Ent) :
    (l.filter fun e => !(e.isEnemy)).countP Ent.isEnemy = 0 := by
  rw [List.countP_eq_zero]
  intro a ha
  have h2 := (List.mem_filter.mp ha).2
  simp only [Bool.not_eq_true'] at h2
  simp [h2]

/-- The spawn loop appends exactly one enemy per iteration, each with
`removeOnHit` false. -/
lemma spawnN_spec (cfg : BoardConfig) (rng : ℕ → ℚ) :
    ∀ (n : ℕ) (ents : List Ent) (k : ℕ),
      (∀ x ∈ ents, x.isEnemy = true → x.removeOnHit = false) →
      (spawnN cfg rng n ents k).1.countP Ent.isEnemy =
        ents.countP Ent.isEnemy + n ∧
      ∀ x ∈ (spawnN cfg rng n ents k).1, x.isEnemy = true →
        x.removeOnHit = false
  | 0, ents, k, hP => ⟨by simp [spawnN], hP⟩
  | n + 1, ents, k, hP => by
    have hP2 : ∀ x ∈ ents ++ [(spawnEnemy cfg rng k).1],
        x.isEnemy = true → x.removeOnHit = false := by
      intro x hx
      rcases List.mem_append.mp hx with hx2 | hx2
      · exact hP x hx2
      · rw [List.mem_singleton] at hx2
        subst hx2
        exact fun _ => spawnEnemy_removeOnHit cfg rng k
    have hrec := spawnN_spec cfg rng n (ents ++ [(spawnEnemy cfg rng k).1])
      (spawnEnemy cfg rng k).2 hP2
    refine ⟨?_, hrec.2⟩
    rw [show spawnN cfg rng (n + 1) ents k =
      spawnN cfg rng n (ents ++ [(spawnEnemy cfg rng k).1])
        (spawnEnemy cfg rng k).2 from rfl]
    rw [hrec.1, List.countP_append]
    simp only [List.countP_cons, List.countP_nil, spawnEnemy_isEnemy, if_true]
    omega

/-- C7: provided construction succeeds (and a road row exists, which keeps
the modelled spawn on the domain where the source's unchecked accesses
cannot throw), the number of enemies in the entity collection equals
`numberOfEnemies` immediately after `Board` construction, no enemy has
`removeOnHit` set, and both properties are preserved by every
`Board.update(dt)` on every state satisfying them: each enemy flagged
`respawnOnNextUpdate` is replaced by exactly one newly spawned enemy, and
enemies are never removed by collisions. -/
theorem board_enemy_count_invariant (cfg : BoardConfig) (rng rng2 : ℕ → ℚ)
    (fuel : ℕ) (b : UpdState) (st : UpdState) (dt : ℚ)
    (hOk : mkBoard cfg rng fuel = .ok b)
    (hRoad : CellType.road ∈ cfg.rowTypes) :
    (b.entities.countP Ent.isEnemy = cfg.numberOfEnemies ∧
      ∀ x ∈ b.entities, x.isEnemy = true → x.removeOnHit = false) ∧
    ((∀ x ∈ st.entities, x.isEnemy = true → x.removeOnHit = false) →
      (boardUpdate cfg rng2 dt st).entities.countP Ent.isEnemy =
        st.entities.countP Ent.isEnemy ∧
      ∀ x ∈ (boardUpdate cfg rng2 dt st).entities, x.isEnemy = true →
        x.removeOnHit = false) := by
  constructor
  · cases hpd : placeDiamonds cfg rng fuel (gridCells cfg) 0 with
    | error err =>
      rw [mkBoard, hpd] at hOk
      exact Except.noConfusion hOk
    | ok res =>
      rw [mkBoard, hpd] at hOk
      have hb : b = ⟨(respawnEnemies cfg rng res.1 res.2).1, mkPlayer cfg,
          (respawnEnemies cfg rng res.1 res.2).2⟩ := by
        cases res
        simpa using hOk.symm
      subst hb
      have hfil : ∀ x ∈ (res.1.filter fun e => !(e.isEnemy)),
          x.isEnemy = true → x.removeOnHit = false := by
        intro x hx hxe
        have h2 := (List.mem_filter.mp hx).2
        simp only [Bool.not_eq_true'] at h2
        rw [hxe] at h2
        exact Bool.noConfusion h2
      have hsp := spawnN_spec cfg rng cfg.numberOfEnemies
        (res.1.filter fun e => !(e.isEnemy)) res.2 hfil
      constructor
      · show ((respawnEnemies cfg rng res.1 res.2).1).countP Ent.isEnemy = _
        simp only [respawnEnemies]
        rw [hsp.1, countP_filter_not_enemy]
        omega
      · show ∀ x ∈ (respawnEnemies cfg rng res.1 res.2).1, _
        simp only [respawnEnemies]
        exact hsp.2
  · intro hInv
    exact updateLoop_enemy_invariant cfg rng2 dt st.entities.length st hInv

/-- The board that `mkBoard` constructs from `killCfg` with the constant
1/2 stream: the single road cell followed by the one spawned enemy. -/
def c7Board : UpdState :=
  { entities := [mkCell killCfg CellType.road (rowZIndex 0) 0 0,
      (spawnEnemy killCfg halfRng 0).1]
    player := mkPlayer killCfg
    rngK := (spawnEnemy killCfg halfRng 0).2 }

/-- Witness for the C7 theorem at the concrete one-cell configuration:
construction succeeds with exactly one enemy, and one update pass
preserves the count. -/
theorem board_enemy_count_invariant_witness :
    (mkBoard killCfg halfRng 1 = .ok c7Board ∧
      CellType.road ∈ killCfg.rowTypes) ∧
    (c7Board.entities.countP Ent.isEnemy = killCfg.numberOfEnemies ∧
      (boardUpdate killCfg halfRng 1 c7Board).entities.countP Ent.isEnemy =
        c7Board.entities.countP Ent.isEnemy) := by
  have hcells : gridCells killCfg =
      [mkCell killCfg CellType.road (rowZIndex 0) 0 0] := by
    have hr1 : List.range 1 = [0] := rfl
    simp [gridCells, mkGridRows, killCfg, BoardConfig.numberOfRows, rowTypeAt,
      hr1]
  have hOkW : mkBoard killCfg halfRng 1 = .ok c7Board := by
    simp only [mkBoard, placeDiamonds, hcells, placeDiamondsLoop,
      respawnEnemies, spawnN, c7Board, List.any_cons, List.any_nil,
      List.filter_cons, List.filter_nil, List.length_cons, List.length_nil,
      List.append_nil, List.nil_append, List.cons_append, Bool.or_false]
    norm_num [killCfg, mkCell, Ent.isDiamond, Ent.isRoadCell, Ent.isEnemy]
  have hmain := board_enemy_count_invariant killCfg halfRng halfRng 1 c7Board
    c7Board 1 hOkW (by decide)
  refine ⟨⟨hOkW, by decide⟩, hmain.1.1, (hmain.2 hmain.1.2).1⟩
